import Mathlib

/-!
Shallow embedding of the FastParse scanning/parsing engine (`fastparse.h`
section of the repository sources).

Modelling conventions:
* Bytes are `Nat` values (`0 ≤ b ≤ 255` in actual inputs; nothing below
  depends on the upper bound).  Character constants appear by ASCII code:
  space 32, tab 9, LF 10, CR 13, quote 34, backslash 92, comma 44,
  plus 43, minus 45, digit zero 48.
* A parser (`fp_parser_t`) holds `input`, the byte sequence between `start`
  and `end`, and `pos = current - start`.  `start ≤ current` is
  representational (`pos : Nat`); `current ≤ end` is `pos ≤ input.length`.
  The field `tail` holds the bytes of the underlying allocation that lie
  after `end` (up to the terminating NUL); it is empty for parsers built by
  `fp_init_cstr` and is read only by the `strtod` call inside
  `fp_parse_double`, which in C scans the NUL-terminated buffer without
  regard to `end`.
* C loops that advance the cursor byte by byte via `fp_advance` are
  modelled by a structurally recursive scan over the remaining bytes
  computing the number of consumed bytes, followed by `fp_consume`, which
  applies exactly the per-byte line/column update of `fp_advance` to each
  consumed byte (`fp_lcStep`).
* A string view (`fp_view_t`) is a (pointer, length) pair; the pointer is
  an abstract address (for the pure view operations, read through an
  ambient memory `mem : Nat → Nat`) or an index into a parser's `input`
  (for views produced by parsing functions, base address 0 at `start`).
* `memcmp` is modelled sign-faithfully by `memcmpZ` (result −1/0/1).
* Out-parameters that C leaves unwritten on failure are modelled as `0`
  resp. `FP_VIEW_EMPTY`; no claim inspects them on a failure path.
-/

/-- Whitespace classification used by both whitespace-skip paths:
space, tab, newline, carriage return. -/
def isWsByte (c : Nat) : Bool := c == 32 || c == 9 || c == 10 || c == 13

/-- `isdigit` from ctype.h on byte values. -/
def isDigitByte (c : Nat) : Bool := 48 ≤ c && c ≤ 57

/-- `isspace` from ctype.h (default locale): space, \t, \n, \v, \f, \r.
Used only by the `strtod` model. -/
def isSpaceByte (c : Nat) : Bool := c == 32 || (9 ≤ c && c ≤ 13)

/-- Length of the maximal leading run of bytes satisfying `f`. -/
def countLeading (f : Nat → Bool) : List Nat → Nat
  | [] => 0
  | c :: rest => if f c then 1 + countLeading f rest else 0

-- ============================================================================
-- CORE TYPES
-- ============================================================================

/-- `fp_view_t`: a non-owning (pointer, length) pair.  `data` is an abstract
byte address (or an index into a parser's input buffer). -/
structure fp_view_t where
  data : Nat
  len : Nat
  deriving DecidableEq

/-- `FP_VIEW_EMPTY()`: `{ .data = NULL, .len = 0 }` (NULL modelled as 0). -/
def FP_VIEW_EMPTY : fp_view_t := ⟨0, 0⟩

/-- `fp_error_t` error codes. -/
inductive fp_error_t where
  | FP_OK
  | FP_ERROR_EOF
  | FP_ERROR_INVALID_NUMBER
  | FP_ERROR_OVERFLOW
  | FP_ERROR_INVALID_ESCAPE
  | FP_ERROR_UNTERMINATED_STRING
  | FP_ERROR_CUSTOM
  deriving DecidableEq

/-- `fp_parser_t`.  `input` is the byte range `[start, end)`, `pos` is
`current - start`, `tail` the allocation bytes after `end` (see header
comment). -/
structure fp_parser_t where
  input : List Nat
  tail : List Nat
  pos : Nat
  line : Nat
  column : Nat
  error_code : fp_error_t
  error_msg : String
  deriving DecidableEq

-- ============================================================================
-- STRING VIEW OPERATIONS
-- ============================================================================

/-- Number of values representable in `size_t` (64-bit). -/
def SIZE_T_CARD : Nat := 2 ^ 64

/-- `fp_view_substr`.  The C comparison `start + len > view.len` is computed
in `size_t`, hence the sum is reduced modulo `2^64`. -/
def fp_view_substr (view : fp_view_t) (start len : Nat) : fp_view_t :=
  if start ≥ view.len then FP_VIEW_EMPTY
  else
    let len2 := if (start + len) % SIZE_T_CARD > view.len then view.len - start else len
    ⟨view.data + start, len2⟩

/-- The `n` bytes of memory `mem` starting at address `ptr`. -/
def readBytes (mem : Nat → Nat) (ptr n : Nat) : List Nat :=
  (List.range n).map (fun i => mem (ptr + i))

/-- Sign-faithful model of `memcmp` on two byte sequences of equal length
(returns −1/0/1; C promises only the sign). -/
def memcmpZ : List Nat → List Nat → Int
  | [], _ => 0
  | _, [] => 0
  | a :: as, b :: bs => if a < b then -1 else if b < a then 1 else memcmpZ as bs

/-- `fp_view_equals`: length equality and `memcmp` over `a.len` bytes. -/
def fp_view_equals (mem : Nat → Nat) (a b : fp_view_t) : Bool :=
  a.len == b.len && memcmpZ (readBytes mem a.data a.len) (readBytes mem b.data a.len) == 0

/-- `fp_view_starts_with`. -/
def fp_view_starts_with (mem : Nat → Nat) (view pfx : fp_view_t) : Bool :=
  pfx.len ≤ view.len && memcmpZ (readBytes mem view.data pfx.len) (readBytes mem pfx.data pfx.len) == 0

/-- `fp_view_compare`: `memcmp` over the shared prefix, ties broken by
length. -/
def fp_view_compare (mem : Nat → Nat) (a b : fp_view_t) : Int :=
  let min_len := min a.len b.len
  let result := memcmpZ (readBytes mem a.data min_len) (readBytes mem b.data min_len)
  if result = 0 then
    if a.len < b.len then -1 else if b.len < a.len then 1 else 0
  else result

-- ============================================================================
-- PARSER INITIALIZATION AND STATE
-- ============================================================================

/-- `fp_init(input, len)`: `buffer` is the readable allocation starting at
`input` (up to its terminating NUL); the scanner covers its first `len`
bytes. -/
def fp_init (buffer : List Nat) (len : Nat) : fp_parser_t :=
  { input := buffer.take len
    tail := buffer.drop len
    pos := 0
    line := 1
    column := 1
    error_code := fp_error_t.FP_OK
    error_msg := "" }

/-- `fp_init_cstr`: `strlen` places `end` at the terminating NUL, so the
whole allocation is covered (`tail = []`). -/
def fp_init_cstr (input : List Nat) : fp_parser_t :=
  fp_init input input.length

/-- `fp_at_end`: `current >= end`. -/
def fp_at_end (p : fp_parser_t) : Bool := p.input.length ≤ p.pos

/-- `fp_remaining`: `end - current` (Nat subtraction; the C `size_t`
difference is only meaningful while `current ≤ end`). -/
def fp_remaining (p : fp_parser_t) : Nat := p.input.length - p.pos

/-- `fp_peek`: the byte at `current`, or NUL (0) at end. -/
def fp_peek (p : fp_parser_t) : Nat := (p.input.drop p.pos).headD 0

/-- `fp_advance`: consume one byte; newline increments `line` and resets
`column`, any other byte increments `column`. -/
def fp_advance (p : fp_parser_t) : Nat × fp_parser_t :=
  if fp_at_end p then (0, p)
  else
    let c := fp_peek p
    (c,
      if c = 10 then { p with pos := p.pos + 1, line := p.line + 1, column := 1 }
      else { p with pos := p.pos + 1, column := p.column + 1 })

/-- `fp_set_error`: overwrite the sticky error slot.  The `strncpy`
truncation to 255 bytes never fires for the messages used in the source
(all are far shorter) and is not modelled. -/
def fp_set_error (p : fp_parser_t) (code : fp_error_t) (msg : String) : fp_parser_t :=
  { p with error_code := code, error_msg := msg }

/-- `fp_has_error`. -/
def fp_has_error (p : fp_parser_t) : Bool := p.error_code ≠ fp_error_t.FP_OK

-- ============================================================================
-- WHITESPACE AND DELIMITER HANDLING
-- ============================================================================

/-- The per-byte line/column update performed by `fp_advance` (and by the
tracking loop inside `fp_skip_ws`). -/
def fp_lcStep (lc : Nat × Nat) (c : Nat) : Nat × Nat :=
  if c = 10 then (lc.1 + 1, 1) else (lc.1, lc.2 + 1)

/-- Consume `k` bytes: advance `pos` and apply the `fp_advance` line/column
update to each consumed byte. -/
def fp_consume (p : fp_parser_t) (k : Nat) : fp_parser_t :=
  let lc := ((p.input.drop p.pos).take k).foldl fp_lcStep (p.line, p.column)
  { p with pos := p.pos + k, line := lc.1, column := lc.2 }

/-- Scalar whitespace skip (the `#else` branch of `fp_skip_whitespace`):
number of bytes of the maximal leading whitespace run of `[str, end)`. -/
def fp_skip_whitespace_scalar : List Nat → Nat
  | [] => 0
  | c :: rest => if isWsByte c then 1 + fp_skip_whitespace_scalar rest else 0

/-- The 16-byte-lane loop of `fp_skip_whitespace_simd`.  The SSE2 mask is
`0xFFFF` exactly when all 16 lane bytes are whitespace; lanes are consumed
while that holds and the loop stops at the first lane containing a
non-whitespace byte (or when fewer than 16 bytes remain). -/
def fp_skip_whitespace_simd_chunks (bytes : List Nat) : Nat :=
  if 16 ≤ bytes.length ∧ (bytes.take 16).all isWsByte then
    16 + fp_skip_whitespace_simd_chunks (bytes.drop 16)
  else 0
termination_by bytes.length
decreasing_by
  simp only [List.length_drop]
  omega

/-- `fp_skip_whitespace_simd`: SIMD lanes, then the scalar finishing loop. -/
def fp_skip_whitespace_simd (bytes : List Nat) : Nat :=
  let k := fp_skip_whitespace_simd_chunks bytes
  k + fp_skip_whitespace_scalar (bytes.drop k)

/-- `fp_skip_whitespace`: the dispatcher.  It is modelled on the scalar
(`#else`) branch; `fp_skip_whitespace_simd`, the branch taken when
`FASTPARSE_SIMD_ENABLED` is set, is proved pointwise equal below, so
parsers built with either branch behave identically. -/
def fp_skip_whitespace (bytes : List Nat) : Nat := fp_skip_whitespace_scalar bytes

/-- `fp_skip_ws`: move `current` to the position returned by
`fp_skip_whitespace`, updating line/column for every byte skipped. -/
def fp_skip_ws (p : fp_parser_t) : fp_parser_t :=
  fp_consume p (fp_skip_whitespace (p.input.drop p.pos))

/-- `fp_skip_ws` as it behaves on an SSE2 build (SIMD path); used to state
SIMD/scalar equivalence. -/
def fp_skip_ws_simd_path (p : fp_parser_t) : fp_parser_t :=
  fp_consume p (fp_skip_whitespace_simd (p.input.drop p.pos))

/-- `fp_match_char`. -/
def fp_match_char (p : fp_parser_t) (expected : Nat) : Bool × fp_parser_t :=
  if fp_peek p == expected then (true, (fp_advance p).2) else (false, p)

/-- `fp_match_str`: the expected view is given by its byte contents.
On a match, `current` and `column` advance by the literal's length
(no `line` tracking, as in the source). -/
def fp_match_str (p : fp_parser_t) (expected : List Nat) : Bool × fp_parser_t :=
  if expected.length ≤ fp_remaining p ∧ (p.input.drop p.pos).take expected.length = expected then
    (true, { p with pos := p.pos + expected.length, column := p.column + expected.length })
  else (false, p)

-- ============================================================================
-- ULTRA-FAST NUMBER PARSING
-- ============================================================================

/-- The digit-accumulation loop of `fp_parse_int64` on the remaining bytes.
Returns `(ok, value, consumed)`; `ok = false` means the pre-multiply
overflow check `value > (max_val - digit) / 10` fired with the cursor left
at the offending digit (`consumed` digits consumed before it). -/
def fp_parse_int64_digits (maxVal : Nat) (value : Nat) : List Nat → Bool × Nat × Nat
  | [] => (true, value, 0)
  | c :: rest =>
    if isDigitByte c then
      let digit := c - 48
      if value > (maxVal - digit) / 10 then (false, value, 0)
      else
        let r := fp_parse_int64_digits maxVal (value * 10 + digit) rest
        (r.1, r.2.1, r.2.2 + 1)
    else (true, value, 0)

/-- `fp_parse_int64`.  Returns `(ok, result, parser)`; on failure the C
function leaves `*result` unwritten (modelled as 0).  `INT64_MAX = 2^63 - 1`,
`(uint64_t)INT64_MAX + 1 = 2^63`.  The success write
`negative ? -(int64_t)value : (int64_t)value` equals the mathematical
`±value` on every reachable path (for `value = 2^63` the two's-complement
negation yields exactly `-2^63`). -/
def fp_parse_int64 (p : fp_parser_t) : Bool × Int × fp_parser_t :=
  let p := fp_skip_ws p
  if fp_at_end p then (false, 0, fp_set_error p fp_error_t.FP_ERROR_EOF "Expected number")
  else
    let negative := fp_peek p = 45
    let p := if fp_peek p = 45 ∨ fp_peek p = 43 then (fp_advance p).2 else p
    if ¬ isDigitByte (fp_peek p) then
      (false, 0, fp_set_error p fp_error_t.FP_ERROR_INVALID_NUMBER "Expected digit")
    else
      let maxVal : Nat := if negative then 2 ^ 63 else 2 ^ 63 - 1
      let r := fp_parse_int64_digits maxVal 0 (p.input.drop p.pos)
      if r.1 then
        (true, if negative then -(r.2.1 : Int) else (r.2.1 : Int), fp_consume p r.2.2)
      else
        (false, 0, fp_set_error (fp_consume p r.2.2) fp_error_t.FP_ERROR_OVERFLOW "Integer overflow")

/-- Sign-byte consumption shared by the `strtod` mantissa and exponent:
1 when the next byte is `+` or `-`, else 0. -/
def strtodSign (l : List Nat) : Nat :=
  if l.headD 0 = 43 ∨ l.headD 0 = 45 then 1 else 0

/-- Whether the next byte is the radix point `.`. -/
def strtodHasPoint (l : List Nat) : Bool := l.headD 0 = 46

/-- Bytes consumed by a well-formed exponent part (`e`/`E`, optional sign,
at least one digit); 0 when the exponent is absent or malformed (then
`strtod` stops before the `e`). -/
def strtodExp (l : List Nat) : Nat :=
  if l.headD 0 = 101 ∨ l.headD 0 = 69 then
    let esgn := strtodSign (l.drop 1)
    let ed := countLeading isDigitByte ((l.drop 1).drop esgn)
    if 0 < ed then 1 + esgn + ed else 0
  else 0

/-- Number of bytes consumed by `strtod` on a NUL-terminated byte sequence:
optional `isspace` run, optional sign, digit sequence optionally containing
one radix point (at least one digit overall, else no conversion and 0 is
returned), optional well-formed exponent part.  The hexadecimal,
infinity and NaN forms accepted by C99 `strtod` are not modelled; no claim
depends on them.  The converted value itself is not modelled either: no
claim inspects it, only the cursor movement `end_ptr - start`. -/
def fp_strtod_consumed (bytes : List Nat) : Nat :=
  let ws := countLeading isSpaceByte bytes
  let r1 := bytes.drop ws
  let sgn := strtodSign r1
  let r2 := r1.drop sgn
  let di := countLeading isDigitByte r2
  let r3 := r2.drop di
  let hasPoint := strtodHasPoint r3
  let df := if hasPoint then countLeading isDigitByte (r3.drop 1) else 0
  if di + df = 0 then 0
  else
    let mant := di + (if hasPoint then 1 + df else 0)
    ws + sgn + mant + strtodExp (r2.drop mant)

/-- `fp_parse_double`: skip whitespace, call `strtod` on the NUL-terminated
allocation starting at `current` (the bytes up to `end` followed by `tail`),
fail with `InvalidNumber` if nothing was consumed, else advance `current`
and `column` by the consumed count.  The parsed value is not modelled (see
`fp_strtod_consumed`). -/
def fp_parse_double (p : fp_parser_t) : Bool × fp_parser_t :=
  let p := fp_skip_ws p
  let consumed := fp_strtod_consumed (p.input.drop p.pos ++ p.tail)
  if consumed = 0 then
    (false, fp_set_error p fp_error_t.FP_ERROR_INVALID_NUMBER "Expected number")
  else
    (true, { p with pos := p.pos + consumed, column := p.column + consumed })

-- ============================================================================
-- STRING PARSING WITH ESCAPE SEQUENCES
-- ============================================================================

/-- The scan loop of `fp_parse_quoted_string` on the bytes after the opening
quote: number of bytes consumed before the loop exits.  The loop stops ahead
of an unescaped `"`; a backslash consumes itself and (if present) the next
byte verbatim; reaching end of input stops the loop (a lone trailing
backslash is consumed before the `at_end` break fires). -/
def fp_pqs_scan : List Nat → Nat
  | [] => 0
  | c :: rest =>
    if c = 34 then 0
    else if c = 92 then
      match rest with
      | [] => 1
      | _ :: rest2 => 2 + fp_pqs_scan rest2
    else 1 + fp_pqs_scan rest

/-- Whether the scan loop of `fp_parse_quoted_string` stops at an unescaped
closing quote (`true`) or runs off the end of input (`false`). -/
def fp_pqs_hitsQuote : List Nat → Bool
  | [] => false
  | c :: rest =>
    if c = 34 then true
    else if c = 92 then
      match rest with
      | [] => false
      | _ :: rest2 => fp_pqs_hitsQuote rest2
    else fp_pqs_hitsQuote rest

/-- `fp_parse_quoted_string`.  On failure `*result` is unwritten (modelled
as `FP_VIEW_EMPTY`).  On success the view is
`{ .data = start, .len = current - start - 1 }` where `start` is the
position after the opening quote and `current` the position after the
closing quote. -/
def fp_parse_quoted_string (p : fp_parser_t) : Bool × fp_view_t × fp_parser_t :=
  let p := fp_skip_ws p
  match fp_match_char p 34 with
  | (false, p1) =>
    (false, FP_VIEW_EMPTY, fp_set_error p1 fp_error_t.FP_ERROR_UNTERMINATED_STRING "Expected opening quote")
  | (true, p1) =>
    let start := p1.pos
    let p2 := fp_consume p1 (fp_pqs_scan (p1.input.drop p1.pos))
    match fp_match_char p2 34 with
    | (false, p3) =>
      (false, FP_VIEW_EMPTY, fp_set_error p3 fp_error_t.FP_ERROR_UNTERMINATED_STRING "Expected closing quote")
    | (true, p3) => (true, ⟨start, p3.pos - start - 1⟩, p3)

-- ============================================================================
-- CSV PARSING
-- ============================================================================

/-- The bare-field loop of `fp_parse_csv_field`: bytes consumed up to the
next `,`, `\n` or `\r` (or end of input). -/
def fp_csv_bare_scan : List Nat → Nat
  | [] => 0
  | c :: rest => if c = 44 ∨ c = 10 ∨ c = 13 then 0 else 1 + fp_csv_bare_scan rest

/-- The trailing-trim loop of `fp_parse_csv_field`: the field length after
walking `end` back over trailing spaces/tabs (never below `start`).  `slice`
is the bare field's bytes. -/
def fp_csv_trim_len (slice : List Nat) : Nat :=
  slice.length - countLeading (fun c => c == 32 || c == 9) slice.reverse

/-- `fp_parse_csv_field`.  Returns `(ok, field, parser)`. -/
def fp_parse_csv_field (p : fp_parser_t) : Bool × fp_view_t × fp_parser_t :=
  let p := fp_skip_ws p
  if fp_at_end p then (false, FP_VIEW_EMPTY, p)
  else if fp_peek p = 34 then fp_parse_quoted_string p
  else
    let start := p.pos
    let k := fp_csv_bare_scan (p.input.drop p.pos)
    let p2 := fp_consume p k
    (true, ⟨start, fp_csv_trim_len ((p.input.drop p.pos).take k)⟩, p2)

/-- `FP_CSV_MAX_FIELDS`. -/
def FP_CSV_MAX_FIELDS : Nat := 64

/-- The field loop of `fp_parse_csv_line`.  The C loop runs while
`!fp_at_end(p) && count < FP_CSV_MAX_FIELDS` and increments `count` once
per iteration; it is encoded structurally with
`budget = FP_CSV_MAX_FIELDS - count`, so `budget = 0` is exactly the
`count < FP_CSV_MAX_FIELDS` exit. -/
def fp_csv_line_loop (budget : Nat) (p : fp_parser_t) (count : Nat) (fields : List fp_view_t) :
    Nat × List fp_view_t × fp_parser_t :=
  match budget with
  | 0 => (count, fields, p)
  | b + 1 =>
    if fp_at_end p then (count, fields, p)
    else
      match fp_parse_csv_field p with
      | (false, _, p1) => (count, fields, p1)
      | (true, f, p1) =>
        match fp_match_char p1 44 with
        | (true, p2) => fp_csv_line_loop b p2 (count + 1) (fields ++ [f])
        | (false, p2) => (count + 1, fields ++ [f], p2)

/-- `fp_parse_csv_line`: the field loop, then the line-terminator
consumption (both branches of the C `if` match a following `\n`, so the
ending is `\r`? then `\n`?). -/
def fp_parse_csv_line (p : fp_parser_t) : Nat × List fp_view_t × fp_parser_t :=
  match fp_csv_line_loop FP_CSV_MAX_FIELDS p 0 [] with
  | (count, fields, p1) =>
    let p2 := (fp_match_char p1 13).2
    let p3 := (fp_match_char p2 10).2
    (count, fields, p3)

/-- Number of `fp_parse_csv_line` calls a caller performs when invoking it
repeatedly until `fp_at_end`, with enough fuel (any `fuel` at least the
number of rows; each call on a non-empty remainder is counted). -/
def fp_csv_row_calls : Nat → fp_parser_t → Nat
  | 0, _ => 0
  | fuel + 1, p =>
    if fp_at_end p then 0 else 1 + fp_csv_row_calls fuel (fp_parse_csv_line p).2.2

-- ============================================================================
-- CHAINABLE PARSER COMBINATORS
-- ============================================================================

/-- `fp_chain_t`.  The C struct holds a pointer to the scanner; the model
carries the scanner state by value, so "the scanner is not mutated" is
"the `parser` component is unchanged". -/
structure fp_chain_t where
  parser : fp_parser_t
  success : Bool
  result : fp_view_t
  deriving DecidableEq

/-- `fp_chain`: begin a chain in the successful state with an empty
result. -/
def fp_chain (p : fp_parser_t) : fp_chain_t :=
  { parser := p, success := true, result := FP_VIEW_EMPTY }

/-- `fp_then_skip_ws`. -/
def fp_then_skip_ws (chain : fp_chain_t) : fp_chain_t :=
  if chain.success then { chain with parser := fp_skip_ws chain.parser } else chain

/-- `fp_then_expect_char`.  The formatted message "Expected '%c'" is
abstracted to a fixed string (no claim inspects the message text). -/
def fp_then_expect_char (chain : fp_chain_t) (expected : Nat) : fp_chain_t :=
  if chain.success then
    match fp_match_char chain.parser expected with
    | (true, p) => { chain with parser := p }
    | (false, p) =>
      { chain with
        parser := fp_set_error p fp_error_t.FP_ERROR_CUSTOM "Expected char"
        success := false }
  else chain

/-- `fp_then_parse_string`.  On parse failure the out-parameter
`&chain.result` is not written, so the prior result view is kept. -/
def fp_then_parse_string (chain : fp_chain_t) : fp_chain_t :=
  if chain.success then
    match fp_parse_quoted_string chain.parser with
    | (true, v, p) => { chain with parser := p, success := true, result := v }
    | (false, _, p) => { chain with parser := p, success := false }
  else chain

-- ============================================================================
-- SPECIFICATION-SIDE CONSTRUCTIONS (inputs for the claims)
-- ============================================================================

/-- Most-significant-first decimal digit bytes of a natural number
(`0 ↦ "0"`). -/
def digitsOf (n : Nat) : List Nat :=
  if n < 10 then [n + 48] else digitsOf (n / 10) ++ [n % 10 + 48]
termination_by n
decreasing_by
  exact Nat.div_lt_self (by omega) (by omega)

/-- The decimal text form of a signed integer: an optional leading minus
followed by the decimal digits of the magnitude. -/
def int64Render (n : Int) : List Nat :=
  (if n < 0 then [45] else []) ++ digitsOf n.natAbs

/-- A CSV field as an abstract datum: a bare byte run or a quoted byte
run. -/
inductive CsvField where
  | bare (bytes : List Nat)
  | quoted (bytes : List Nat)
  deriving DecidableEq

/-- Rendering a field back to concrete bytes. -/
def renderField : CsvField → List Nat
  | CsvField.bare c => c
  | CsvField.quoted c => 34 :: (c ++ [34])

/-- Rendering a row: fields joined by commas. -/
def renderRow (r : List CsvField) : List Nat :=
  match r with
  | [] => []
  | [f] => renderField f
  | f :: rest => renderField f ++ 44 :: renderRow rest

/-- Rendering a CSV document: every row terminated by a newline. -/
def renderRows : List (List CsvField) → List Nat
  | [] => []
  | r :: rest => renderRow r ++ 10 :: renderRows rest

/-- Well-formedness of a field: a bare field is non-empty, starts with a
byte that is not whitespace and not a quote, and contains no comma, LF, CR
or quote; a quoted field's content contains no quote and no backslash. -/
def fieldValid : CsvField → Bool
  | CsvField.bare c =>
    (decide (c ≠ [])) && !isWsByte (c.headD 0) &&
      c.all (fun b => decide (b ≠ 44 ∧ b ≠ 10 ∧ b ≠ 13 ∧ b ≠ 34))
  | CsvField.quoted c => c.all (fun b => decide (b ≠ 34 ∧ b ≠ 92))

/-- Well-formedness of a row: between 1 and `FP_CSV_MAX_FIELDS` well-formed
fields. -/
def rowValid (r : List CsvField) : Bool :=
  (decide (1 ≤ r.length)) && (decide (r.length ≤ FP_CSV_MAX_FIELDS)) && r.all fieldValid

/-- Well-formedness of a CSV document. -/
def csvValid (rows : List (List CsvField)) : Bool := rows.all rowValid

/-- Reference row count: the number of logical rows obtained by splitting
the input at newlines that are not inside quoted fields (quote state
toggles at each quote byte), a trailing empty segment not counting as a
row.  `inQuote` is the quote state, `seg` whether the current segment is
non-empty. -/
def refRowsGo : List Nat → Bool → Bool → Nat
  | [], _, seg => if seg then 1 else 0
  | b :: rest, inQuote, seg =>
    if b = 10 ∧ inQuote = false then 1 + refRowsGo rest false false
    else refRowsGo rest (if b = 34 then !inQuote else inQuote) true

/-- Reference row count of an input (see `refRowsGo`). -/
def refRowCount (bytes : List Nat) : Nat := refRowsGo bytes false false

/-- The parse operations quantified over by the scanner-invariant claim. -/
inductive FpOp where
  | advance
  | skipWs
  | matchChar (expected : Nat)
  | matchStr (expected : List Nat)
  | parseInt64
  | parseDouble
  | parseQuotedString
  | parseCsvField
  | parseCsvLine

/-- Applying one parse operation to a scanner (result values discarded). -/
def fpApply : FpOp → fp_parser_t → fp_parser_t
  | FpOp.advance, p => (fp_advance p).2
  | FpOp.skipWs, p => fp_skip_ws p
  | FpOp.matchChar c, p => (fp_match_char p c).2
  | FpOp.matchStr s, p => (fp_match_str p s).2
  | FpOp.parseInt64, p => (fp_parse_int64 p).2.2
  | FpOp.parseDouble, p => (fp_parse_double p).2
  | FpOp.parseQuotedString, p => (fp_parse_quoted_string p).2.2
  | FpOp.parseCsvField, p => (fp_parse_csv_field p).2.2
  | FpOp.parseCsvLine, p => (fp_parse_csv_line p).2.2

/-- Applying a sequence of parse operations, first one first. -/
def fpApplyAll (ops : List FpOp) (p : fp_parser_t) : fp_parser_t :=
  ops.foldl (fun q op => fpApply op q) p

-- ============================================================================
-- BASIC LEMMAS: remaining input, consumption, peeking
-- ============================================================================

/-- The remaining input of a parser (bytes from `current` to `end`). -/
def fp_rem (p : fp_parser_t) : List Nat := p.input.drop p.pos

theorem fp_consume_input (p : fp_parser_t) (k : Nat) : (fp_consume p k).input = p.input := rfl

theorem fp_consume_tail (p : fp_parser_t) (k : Nat) : (fp_consume p k).tail = p.tail := rfl

theorem fp_consume_pos (p : fp_parser_t) (k : Nat) : (fp_consume p k).pos = p.pos + k := rfl

theorem fp_consume_error (p : fp_parser_t) (k : Nat) :
    (fp_consume p k).error_code = p.error_code := rfl

theorem fp_rem_consume (p : fp_parser_t) (k : Nat) :
    fp_rem (fp_consume p k) = (fp_rem p).drop k := by
  simp [fp_rem, fp_consume, List.drop_drop, Nat.add_comm]

theorem fp_consume_zero (p : fp_parser_t) : fp_consume p 0 = p := by
  cases p
  simp [fp_consume]

theorem fp_at_end_iff (p : fp_parser_t) : fp_at_end p = true ↔ fp_rem p = [] := by
  simp [fp_at_end, fp_rem, List.drop_eq_nil_iff_le, decide_eq_true_eq]

theorem fp_at_end_false_iff (p : fp_parser_t) : fp_at_end p = false ↔ fp_rem p ≠ [] := by
  rw [← Bool.not_eq_true, not_iff_not]
  exact fp_at_end_iff p

theorem fp_peek_rem (p : fp_parser_t) : fp_peek p = (fp_rem p).headD 0 := rfl

theorem fp_peek_cons {p : fp_parser_t} {c : Nat} {t : List Nat} (h : fp_rem p = c :: t) :
    fp_peek p = c := by
  rw [fp_peek_rem, h]
  rfl

theorem fp_consume_consume (p : fp_parser_t) (a b : Nat) :
    fp_consume (fp_consume p a) b = fp_consume p (a + b) := by
  cases p with
  | mk input tail pos line column ec em =>
    simp only [fp_consume, List.drop_drop]
    have htake : (input.drop pos).take (a + b) =
        (input.drop pos).take a ++ ((input.drop pos).drop a).take b := by
      rw [List.take_add]
    have hdrop : input.drop (pos + a) = (input.drop pos).drop a := by
      rw [List.drop_drop, Nat.add_comm]
    simp only [hdrop, htake, List.foldl_append, Nat.add_assoc]

theorem fp_advance_consume {p : fp_parser_t} (h : fp_at_end p = false) :
    (fp_advance p).2 = fp_consume p 1 := by
  rw [fp_at_end_false_iff] at h
  rcases hr : fp_rem p with _ | ⟨c, t⟩
  · exact absurd hr h
  · have hpk : fp_peek p = c := fp_peek_cons hr
    have hb : fp_at_end p = false := by
      rw [fp_at_end_false_iff, hr]
      simp
    have htk : (p.input.drop p.pos).take 1 = [c] := by
      change (fp_rem p).take 1 = [c]
      rw [hr]
      rfl
    cases p with
    | mk input tail pos line column ec em =>
      simp only [fp_advance, hb, Bool.false_eq_true, if_false, fp_consume] at *
      rw [htk]
      by_cases hc : c = 10 <;> simp [hpk, hc, fp_lcStep, List.foldl]

-- ============================================================================
-- WHITESPACE SKIPPING: SIMD/scalar equivalence (claim C2 groundwork)
-- ============================================================================

theorem fp_skip_whitespace_scalar_le (l : List Nat) :
    fp_skip_whitespace_scalar l ≤ l.length := by
  induction l with
  | nil => simp [fp_skip_whitespace_scalar]
  | cons c rest ih =>
    simp only [fp_skip_whitespace_scalar, List.length_cons]
    split <;> omega

theorem fp_skip_whitespace_scalar_append {A : List Nat} (B : List Nat)
    (h : A.all isWsByte = true) :
    fp_skip_whitespace_scalar (A ++ B) = A.length + fp_skip_whitespace_scalar B := by
  induction A with
  | nil => simp
  | cons c rest ih =>
    simp only [List.all_cons, Bool.and_eq_true] at h
    have hih := ih h.2
    simp only [List.cons_append, fp_skip_whitespace_scalar, h.1, if_true, List.length_cons,
      List.append_eq]
    omega

theorem fp_skip_whitespace_simd_eq_scalar (l : List Nat) :
    fp_skip_whitespace_simd l = fp_skip_whitespace_scalar l := by
  induction l using fp_skip_whitespace_simd_chunks.induct with
  | case1 l hcond ih =>
    have hchunks : fp_skip_whitespace_simd_chunks l =
        16 + fp_skip_whitespace_simd_chunks (l.drop 16) := by
      rw [fp_skip_whitespace_simd_chunks, if_pos hcond]
    have hsplit : l = l.take 16 ++ l.drop 16 := (List.take_append_drop 16 l).symm
    have hlen16 : (l.take 16).length = 16 := by
      rw [List.length_take]
      omega
    have hscal : fp_skip_whitespace_scalar l = 16 + fp_skip_whitespace_scalar (l.drop 16) := by
      conv_lhs => rw [hsplit]
      rw [fp_skip_whitespace_scalar_append _ hcond.2, hlen16]
    simp only [fp_skip_whitespace_simd] at ih ⊢
    rw [hchunks, hscal]
    have hdd : l.drop (16 + fp_skip_whitespace_simd_chunks (l.drop 16)) =
        (l.drop 16).drop (fp_skip_whitespace_simd_chunks (l.drop 16)) := by
      rw [List.drop_drop, Nat.add_comm]
    rw [hdd]
    omega
  | case2 l hcond =>
    have hchunks : fp_skip_whitespace_simd_chunks l = 0 := by
      rw [fp_skip_whitespace_simd_chunks, if_neg hcond]
    simp [fp_skip_whitespace_simd, hchunks]

theorem fp_skip_whitespace_le (l : List Nat) : fp_skip_whitespace l ≤ l.length :=
  fp_skip_whitespace_scalar_le l

theorem fp_skip_ws_simd_path_eq (p : fp_parser_t) : fp_skip_ws_simd_path p = fp_skip_ws p := by
  rw [fp_skip_ws, fp_skip_ws_simd_path, fp_skip_whitespace, fp_skip_whitespace_simd_eq_scalar]

/-- After skipping, the head of the remaining input is not whitespace. -/
theorem fp_skip_whitespace_scalar_stops (l : List Nat) :
    isWsByte ((l.drop (fp_skip_whitespace_scalar l)).headD 0) = false := by
  induction l with
  | nil => rfl
  | cons c rest ih =>
    simp only [fp_skip_whitespace_scalar]
    by_cases hc : isWsByte c = true
    · rw [if_pos hc, Nat.add_comm, List.drop_add]
      simpa using ih
    · rw [if_neg hc, List.drop_zero, List.headD_cons]
      exact Bool.not_eq_true _ ▸ hc

theorem fp_skip_whitespace_zero {l : List Nat} (h : isWsByte (l.headD 0) = false) :
    fp_skip_whitespace l = 0 := by
  rw [fp_skip_whitespace]
  cases l with
  | nil => rfl
  | cons c rest =>
    simp only [List.headD_cons] at h
    simp [fp_skip_whitespace_scalar, h]

/-- `fp_skip_ws` is the identity when the next byte is not whitespace
(including at end of input, where `fp_peek` is the non-whitespace NUL). -/
theorem fp_skip_ws_noop {p : fp_parser_t} (h : isWsByte (fp_peek p) = false) :
    fp_skip_ws p = p := by
  rw [fp_skip_ws, fp_skip_whitespace_zero h, fp_consume_zero]

theorem fp_skip_ws_idem (p : fp_parser_t) : fp_skip_ws (fp_skip_ws p) = fp_skip_ws p := by
  apply fp_skip_ws_noop
  rw [fp_skip_ws, fp_peek_rem, fp_rem_consume, fp_rem, fp_skip_whitespace]
  exact fp_skip_whitespace_scalar_stops _

theorem fp_match_char_true {p : fp_parser_t} {e : Nat} {t : List Nat}
    (h : fp_rem p = e :: t) : fp_match_char p e = (true, fp_consume p 1) := by
  have hpk : fp_peek p = e := fp_peek_cons h
  have hend : fp_at_end p = false := by
    rw [fp_at_end_false_iff, h]
    simp
  rw [fp_match_char, if_pos (by simp [hpk]), fp_advance_consume hend]

theorem fp_match_char_false {p : fp_parser_t} {e : Nat} (h : fp_peek p ≠ e) :
    fp_match_char p e = (false, p) := by
  rw [fp_match_char, if_neg (by simp [h])]

-- ============================================================================
-- MEMCMP LEMMAS (claim C9 groundwork)
-- ============================================================================

theorem memcmpZ_self (l : List Nat) : memcmpZ l l = 0 := by
  induction l with
  | nil => rfl
  | cons c rest ih => simp [memcmpZ, ih]

theorem memcmpZ_eq_zero_iff {a b : List Nat} (h : a.length = b.length) :
    memcmpZ a b = 0 ↔ a = b := by
  induction a generalizing b with
  | nil =>
    cases b with
    | nil => simp [memcmpZ]
    | cons y ys => simp at h
  | cons x xs ih =>
    cases b with
    | nil => simp at h
    | cons y ys =>
      simp only [List.length_cons, Nat.add_right_cancel_iff] at h
      simp only [memcmpZ]
      rcases Nat.lt_trichotomy x y with hlt | heq | hgt
      · rw [if_pos hlt]
        constructor
        · intro hc
          exact absurd hc (by decide)
        · intro hc
          simp only [List.cons.injEq] at hc
          omega
      · subst heq
        rw [if_neg (by omega), if_neg (by omega), ih h]
        simp
      · rw [if_neg (by omega), if_pos hgt]
        constructor
        · intro hc
          exact absurd hc (by decide)
        · intro hc
          simp only [List.cons.injEq] at hc
          omega

theorem readBytes_length (mem : Nat → Nat) (ptr n : Nat) : (readBytes mem ptr n).length = n := by
  simp [readBytes]

-- ============================================================================
-- CLAIM C9: view equality is reflexive; compare == 0 iff equals
-- ============================================================================

/-- C9: for every view `v`, `fp_view_equals(v, v)` is true, and for all
views `a`, `b` (read through any memory), `fp_view_compare(a, b) == 0`
holds exactly when `fp_view_equals(a, b)` is true. -/
theorem c9_view_equals_refl_compare_zero_iff :
    (∀ (mem : Nat → Nat) (v : fp_view_t), fp_view_equals mem v v = true) ∧
    (∀ (mem : Nat → Nat) (a b : fp_view_t),
      fp_view_compare mem a b = 0 ↔ fp_view_equals mem a b = true) := by
  constructor
  · intro mem v
    simp [fp_view_equals, memcmpZ_self]
  · intro mem a b
    obtain ⟨ad, al⟩ := a
    obtain ⟨bd, bl⟩ := b
    by_cases hlen : al = bl
    · subst hlen
      simp only [fp_view_compare, fp_view_equals, min_self]
      by_cases hz : memcmpZ (readBytes mem ad al) (readBytes mem bd al) = 0
      · rw [if_pos hz]
        simp [hz]
      · rw [if_neg hz]
        simp only [beq_self_eq_true, Bool.true_and]
        constructor
        · intro hc
          exact absurd hc hz
        · intro hc
          simp only [beq_iff_eq] at hc
          exact absurd hc hz
    · simp only [fp_view_compare, fp_view_equals]
      have hne : (al == bl) = false := by
        simp [hlen]
      rw [hne]
      simp only [Bool.false_and]
      constructor
      · intro hc
        exfalso
        by_cases hz : memcmpZ (readBytes mem ad (min al bl)) (readBytes mem bd (min al bl)) = 0
        · rw [if_pos hz] at hc
          rcases Nat.lt_or_ge al bl with h1 | h1
          · rw [if_pos h1] at hc
            exact absurd hc (by decide)
          · have h2 : bl < al := by omega
            rw [if_neg (by omega), if_pos h2] at hc
            exact absurd hc (by decide)
        · rw [if_neg hz] at hc
          exact absurd hc hz
      · intro hc
        exact absurd hc (by simp)

-- ============================================================================
-- CLAIM C3: substr clamping (corrected: the size_t sum can wrap)
-- ============================================================================

/-- C3 counterexample: for `v.len = 2`, `offset = 1`, `length = 2^64 - 1`
the C comparison `start + len > view.len` wraps to `0 > 2`, the clamp is
skipped, and the returned view has length `2^64 - 1`, far outside `v`'s
two-byte range (the claim demands length `min(length, v.len - offset) = 1`
and containment). -/
theorem c3_substr_counterexample :
    fp_view_substr ⟨0, 2⟩ 1 (2 ^ 64 - 1) = ⟨1, 2 ^ 64 - 1⟩ ∧
    ((fp_view_substr ⟨0, 2⟩ 1 (2 ^ 64 - 1)).len ≠ min (2 ^ 64 - 1) (2 - 1) ∧
      ¬((fp_view_substr ⟨0, 2⟩ 1 (2 ^ 64 - 1)).data + (fp_view_substr ⟨0, 2⟩ 1 (2 ^ 64 - 1)).len
          ≤ 0 + 2)) := by
  refine ⟨?_, ?_, ?_⟩ <;> decide

/-- C3 (amended): when `offset + length` does not overflow `size_t`,
`fp_view_substr` returns the empty view for `offset ≥ v.len` and otherwise
a view at `v.data + offset` of length `min(length, v.len - offset)`, always
contained in `v`'s byte range. -/
theorem c3_substr_amended (v : fp_view_t) (start len : Nat) (hof : start + len < SIZE_T_CARD) :
    (start ≥ v.len → fp_view_substr v start len = FP_VIEW_EMPTY) ∧
    (start < v.len →
      (fp_view_substr v start len).data = v.data + start ∧
      (fp_view_substr v start len).len = min len (v.len - start) ∧
      v.data ≤ (fp_view_substr v start len).data ∧
      (fp_view_substr v start len).data + (fp_view_substr v start len).len ≤ v.data + v.len) := by
  have hmod : (start + len) % SIZE_T_CARD = start + len := Nat.mod_eq_of_lt hof
  constructor
  · intro hge
    rw [fp_view_substr, if_pos hge]
  · intro hlt
    have hsub : fp_view_substr v start len =
        ⟨v.data + start, if start + len > v.len then v.len - start else len⟩ := by
      rw [fp_view_substr, if_neg (by omega)]
      dsimp only
      rw [hmod]
    rw [hsub]
    by_cases hcl : start + len > v.len
    · rw [if_pos hcl]
      refine ⟨rfl, ?_, ?_, ?_⟩ <;> dsimp only <;> omega
    · rw [if_neg hcl]
      refine ⟨rfl, ?_, ?_, ?_⟩ <;> dsimp only <;> omega

theorem c3_substr_amended_witness :
    1 + 7 < SIZE_T_CARD ∧
    (1 ≥ (⟨5, 3⟩ : fp_view_t).len → fp_view_substr ⟨5, 3⟩ 1 7 = FP_VIEW_EMPTY) ∧
    (1 < (⟨5, 3⟩ : fp_view_t).len →
      (fp_view_substr ⟨5, 3⟩ 1 7).data = (⟨5, 3⟩ : fp_view_t).data + 1 ∧
      (fp_view_substr ⟨5, 3⟩ 1 7).len = min 7 ((⟨5, 3⟩ : fp_view_t).len - 1) ∧
      (⟨5, 3⟩ : fp_view_t).data ≤ (fp_view_substr ⟨5, 3⟩ 1 7).data ∧
      (fp_view_substr ⟨5, 3⟩ 1 7).data + (fp_view_substr ⟨5, 3⟩ 1 7).len
        ≤ (⟨5, 3⟩ : fp_view_t).data + (⟨5, 3⟩ : fp_view_t).len) :=
  ⟨by decide, c3_substr_amended ⟨5, 3⟩ 1 7 (by decide)⟩

-- ============================================================================
-- CLAIM C2: SIMD and scalar whitespace skipping agree
-- ============================================================================

/-- C2: on every byte range the SIMD whitespace skip and the scalar
whitespace skip return the same final offset, both at most the range
length (so neither moves the cursor past `end`), and consequently
`fp_skip_ws` produces the identical scanner state (position, line and
column) regardless of which path executed. -/
theorem c2_skip_whitespace_simd_scalar_equiv :
    (∀ bytes : List Nat, fp_skip_whitespace_simd bytes = fp_skip_whitespace_scalar bytes) ∧
    (∀ bytes : List Nat, fp_skip_whitespace_simd bytes ≤ bytes.length ∧
      fp_skip_whitespace_scalar bytes ≤ bytes.length) ∧
    (∀ p : fp_parser_t, fp_skip_ws_simd_path p = fp_skip_ws p) :=
  ⟨fp_skip_whitespace_simd_eq_scalar,
   fun bytes => ⟨by rw [fp_skip_whitespace_simd_eq_scalar]; exact fp_skip_whitespace_scalar_le bytes,
     fp_skip_whitespace_scalar_le bytes⟩,
   fp_skip_ws_simd_path_eq⟩

-- ============================================================================
-- CLAIM C7: what fp_set_error records (corrected: no position captured)
-- ============================================================================

/-- C7 (amended): `fp_set_error` stores only the error code and the
(truncated) message; it does not capture the cursor's line/column into the
error record.  The scanner's `line`/`column` remain its live position
fields, so an error's position is accurate only while the cursor has not
moved since the failure. -/
theorem c7_set_error_records_only_code_msg (p : fp_parser_t) (code : fp_error_t) (msg : String) :
    (fp_set_error p code msg).error_code = code ∧
    (fp_set_error p code msg).error_msg = msg ∧
    (fp_set_error p code msg).line = p.line ∧
    (fp_set_error p code msg).column = p.column ∧
    (fp_set_error p code msg).pos = p.pos ∧
    (fp_set_error p code msg).input = p.input :=
  ⟨rfl, rfl, rfl, rfl, rfl, rfl⟩

/-- C7 counterexample: set an error at line 1 of input `"\n"`, then advance
the cursor over the newline; the sticky error is unchanged, yet inspecting
the scanner now reports line 2 — the cursor position at inspection time,
not the position at the time of the `fp_set_error` call. -/
theorem c7_counterexample :
    (fp_set_error (fp_init_cstr [10]) fp_error_t.FP_ERROR_CUSTOM "m").line = 1 ∧
    ((fp_advance (fp_set_error (fp_init_cstr [10]) fp_error_t.FP_ERROR_CUSTOM "m")).2.error_code
      = fp_error_t.FP_ERROR_CUSTOM) ∧
    (fp_advance (fp_set_error (fp_init_cstr [10]) fp_error_t.FP_ERROR_CUSTOM "m")).2.line = 2 := by
  refine ⟨rfl, ?_, ?_⟩ <;> decide

-- ============================================================================
-- CLAIM C8: failed chains are inert
-- ============================================================================

/-- C8: once a chain's `success` flag is false, every chained step returns
the chain unchanged — the scanner is not mutated, `success` stays false and
`result` keeps the value produced by the last successful step. -/
theorem c8_failed_chain_is_noop (chain : fp_chain_t) (expected : Nat)
    (h : chain.success = false) :
    fp_then_skip_ws chain = chain ∧
    fp_then_expect_char chain expected = chain ∧
    fp_then_parse_string chain = chain := by
  refine ⟨?_, ?_, ?_⟩ <;> simp [fp_then_skip_ws, fp_then_expect_char, fp_then_parse_string, h]

theorem c8_failed_chain_is_noop_witness :
    (fp_chain_t.mk (fp_init_cstr [97]) false ⟨3, 4⟩).success = false ∧
    (fp_then_skip_ws (fp_chain_t.mk (fp_init_cstr [97]) false ⟨3, 4⟩)
        = fp_chain_t.mk (fp_init_cstr [97]) false ⟨3, 4⟩ ∧
      fp_then_expect_char (fp_chain_t.mk (fp_init_cstr [97]) false ⟨3, 4⟩) 34
        = fp_chain_t.mk (fp_init_cstr [97]) false ⟨3, 4⟩ ∧
      fp_then_parse_string (fp_chain_t.mk (fp_init_cstr [97]) false ⟨3, 4⟩)
        = fp_chain_t.mk (fp_init_cstr [97]) false ⟨3, 4⟩) :=
  ⟨rfl, c8_failed_chain_is_noop (fp_chain_t.mk (fp_init_cstr [97]) false ⟨3, 4⟩) 34 rfl⟩

-- ============================================================================
-- CLAIM C1 GROUNDWORK: digit accumulation
-- ============================================================================

/-- The value accumulated by the digit loop over a digit-byte list. -/
def foldDigits (v : Nat) (ds : List Nat) : Nat :=
  ds.foldl (fun acc c => acc * 10 + (c - 48)) v

theorem foldDigits_nil (v : Nat) : foldDigits v [] = v := rfl

theorem foldDigits_cons (v c : Nat) (ds : List Nat) :
    foldDigits v (c :: ds) = foldDigits (v * 10 + (c - 48)) ds := rfl

theorem foldDigits_append (v : Nat) (a b : List Nat) :
    foldDigits v (a ++ b) = foldDigits (foldDigits v a) b := by
  simp [foldDigits, List.foldl_append]

theorem foldDigits_le (v : Nat) (ds : List Nat) : v ≤ foldDigits v ds := by
  induction ds generalizing v with
  | nil => simp [foldDigits_nil]
  | cons c t ih =>
    rw [foldDigits_cons]
    calc v ≤ v * 10 + (c - 48) := by omega
    _ ≤ foldDigits (v * 10 + (c - 48)) t := ih _

/-- The overflow guard `value > (max_val - digit) / 10` fires exactly when
the multiply-add would exceed the bound (digits are at most 9). -/
theorem fp_int64_guard_iff (v m d : Nat) (hd : d ≤ 9) (hm : 9 ≤ m) :
    v > (m - d) / 10 ↔ v * 10 + d > m := by
  have hdm := Nat.div_add_mod (m - d) 10
  have hlt : (m - d) % 10 < 10 := Nat.mod_lt _ (by omega)
  omega

theorem digitsOf_ne_nil (n : Nat) : digitsOf n ≠ [] := by
  rw [digitsOf]
  split <;> simp

theorem digitsOf_mem_digit (n : Nat) : ∀ c ∈ digitsOf n, 48 ≤ c ∧ c ≤ 57 := by
  induction n using digitsOf.induct with
  | case1 n h =>
    intro c hc
    rw [digitsOf, if_pos h] at hc
    simp only [List.mem_singleton] at hc
    omega
  | case2 n h ih =>
    intro c hc
    rw [digitsOf, if_neg h] at hc
    rcases List.mem_append.mp hc with hm | hm
    · exact ih c hm
    · simp only [List.mem_singleton] at hm
      have : n % 10 < 10 := Nat.mod_lt _ (by omega)
      omega

theorem foldDigits_digitsOf (n : Nat) : foldDigits 0 (digitsOf n) = n := by
  induction n using digitsOf.induct with
  | case1 n h =>
    rw [digitsOf, if_pos h, foldDigits_cons, foldDigits_nil]
    omega
  | case2 n h ih =>
    rw [digitsOf, if_neg h, foldDigits_append, ih, foldDigits_cons, foldDigits_nil]
    have h0 := Nat.div_add_mod n 10
    have h1 : n % 10 < 10 := Nat.mod_lt _ (by omega)
    omega

/-- Success run of the digit loop: over a digit prefix followed by a
non-digit (or nothing), with the accumulated value within the bound, the
loop accepts the whole prefix and returns the accumulated value. -/
theorem fp_parse_int64_digits_success (maxVal : Nat) (hmax : 9 ≤ maxVal) :
    ∀ (ds rest : List Nat) (v : Nat),
      (∀ c ∈ ds, 48 ≤ c ∧ c ≤ 57) →
      isDigitByte (rest.headD 0) = false →
      foldDigits v ds ≤ maxVal →
      fp_parse_int64_digits maxVal v (ds ++ rest) = (true, foldDigits v ds, ds.length) := by
  intro ds
  induction ds with
  | nil =>
    intro rest v _ hrest _
    cases rest with
    | nil => rfl
    | cons c t =>
      simp only [List.headD_cons] at hrest
      simp [fp_parse_int64_digits, hrest, foldDigits_nil]
  | cons c t ih =>
    intro rest v hds hrest hbound
    have hc := hds c (by simp)
    have hdig : isDigitByte c = true := by
      simp only [isDigitByte, Bool.and_eq_true, decide_eq_true_eq]
      omega
    have hstep : v * 10 + (c - 48) ≤ maxVal := by
      calc v * 10 + (c - 48) ≤ foldDigits (v * 10 + (c - 48)) t := foldDigits_le _ t
      _ = foldDigits v (c :: t) := (foldDigits_cons v c t).symm
      _ ≤ maxVal := hbound
    have hguard : ¬(v > (maxVal - (c - 48)) / 10) := by
      rw [fp_int64_guard_iff v maxVal (c - 48) (by omega) hmax]
      omega
    have hrec := ih rest (v * 10 + (c - 48)) (fun x hx => hds x (by simp [hx])) hrest
      (by rw [← foldDigits_cons]; exact hbound)
    simp only [List.cons_append, fp_parse_int64_digits, hdig, if_true, if_neg hguard,
      List.append_eq, hrec, foldDigits_cons, List.length_cons]

/-- Overflow run of the digit loop: if the full accumulated value exceeds
the bound, the guard fires at some digit and the loop fails. -/
theorem fp_parse_int64_digits_overflow (maxVal : Nat) (hmax : 9 ≤ maxVal) :
    ∀ (ds rest : List Nat) (v : Nat),
      (∀ c ∈ ds, 48 ≤ c ∧ c ≤ 57) →
      ds ≠ [] →
      maxVal < foldDigits v ds →
      (fp_parse_int64_digits maxVal v (ds ++ rest)).1 = false := by
  intro ds
  induction ds with
  | nil => intro rest v _ hne _; exact absurd rfl hne
  | cons c t ih =>
    intro rest v hds _ hbound
    have hc := hds c (by simp)
    have hdig : isDigitByte c = true := by
      simp only [isDigitByte, Bool.and_eq_true, decide_eq_true_eq]
      omega
    by_cases hguard : v > (maxVal - (c - 48)) / 10
    · simp [fp_parse_int64_digits, hdig, hguard]
    · have hstep : ¬(v * 10 + (c - 48) > maxVal) := by
        rw [← fp_int64_guard_iff v maxVal (c - 48) (by omega) hmax]
        exact hguard
      have htne : t ≠ [] := by
        intro he
        rw [he, foldDigits_cons, foldDigits_nil] at hbound
        omega
      have hrec := ih rest (v * 10 + (c - 48)) (fun x hx => hds x (by simp [hx])) htne
        (by rw [← foldDigits_cons]; exact hbound)
      simp only [List.cons_append, fp_parse_int64_digits, hdig, if_true, if_neg hguard]
      exact hrec

theorem isWsByte_of_digit {c : Nat} (h48 : 48 ≤ c) (h57 : c ≤ 57) : isWsByte c = false := by
  simp only [isWsByte, Bool.or_eq_false_iff, beq_eq_false_iff_ne, ne_eq]
  refine ⟨⟨⟨?_, ?_⟩, ?_⟩, ?_⟩ <;> omega

theorem isDigitByte_of_digit {c : Nat} (h48 : 48 ≤ c) (h57 : c ≤ 57) : isDigitByte c = true := by
  simp only [isDigitByte, Bool.and_eq_true, decide_eq_true_eq]
  omega

theorem fp_rem_init_cstr (l : List Nat) : fp_rem (fp_init_cstr l) = l := by
  simp [fp_rem, fp_init_cstr, fp_init]

/-- Head digit of `digitsOf m`, with the chain of facts needed to push a
parser through the entry checks of `fp_parse_int64`. -/
theorem digitsOf_head_digit (m : Nat) :
    ∃ c t, digitsOf m = c :: t ∧ 48 ≤ c ∧ c ≤ 57 := by
  obtain ⟨c, t, hct⟩ := List.exists_cons_of_ne_nil (digitsOf_ne_nil m)
  have hc := digitsOf_mem_digit m c (by rw [hct]; exact List.mem_cons_self c t)
  exact ⟨c, t, hct, hc.1, hc.2⟩

theorem fp_parse_int64_core_nosign {p : fp_parser_t} {m : Nat} (hrem : fp_rem p = digitsOf m) :
    (m ≤ 2 ^ 63 - 1 →
      (fp_parse_int64 p).1 = true ∧ (fp_parse_int64 p).2.1 = (m : Int)) ∧
    (2 ^ 63 - 1 < m →
      (fp_parse_int64 p).1 = false ∧
        (fp_parse_int64 p).2.2.error_code = fp_error_t.FP_ERROR_OVERFLOW) := by
  obtain ⟨c, t, hct, h48, h57⟩ := digitsOf_head_digit m
  have hpeek : fp_peek p = c := fp_peek_cons (by rw [hrem, hct])
  have hend : fp_at_end p = false := by
    rw [fp_at_end_false_iff, hrem, hct]
    simp
  have hskip : fp_skip_ws p = p :=
    fp_skip_ws_noop (by rw [hpeek]; exact isWsByte_of_digit h48 h57)
  have h45f : (fp_peek p = 45) = False := by
    rw [hpeek]
    exact eq_false (by omega)
  have h43f : (fp_peek p = 43) = False := by
    rw [hpeek]
    exact eq_false (by omega)
  have hdig : isDigitByte (fp_peek p) = true := by
    rw [hpeek]
    exact isDigitByte_of_digit h48 h57
  have hrem2 : p.input.drop p.pos = digitsOf m := hrem
  have hnd : isDigitByte (([] : List Nat).headD 0) = false := by decide
  constructor
  · intro hle
    have hloop := fp_parse_int64_digits_success (2 ^ 63 - 1) (by norm_num) (digitsOf m) [] 0
      (fun c hc => digitsOf_mem_digit m c hc) hnd
      (by rw [foldDigits_digitsOf]; exact hle)
    rw [List.append_nil, foldDigits_digitsOf] at hloop
    norm_num at hloop
    constructor <;>
      simp [fp_parse_int64, hskip, hend, h45f, h43f, hdig, hrem2, hloop]
  · intro hlt
    have hloop := fp_parse_int64_digits_overflow (2 ^ 63 - 1) (by norm_num) (digitsOf m) [] 0
      (fun c hc => digitsOf_mem_digit m c hc) (digitsOf_ne_nil m)
      (by rw [foldDigits_digitsOf]; exact hlt)
    rw [List.append_nil] at hloop
    norm_num at hloop
    constructor <;>
      simp [fp_parse_int64, hskip, hend, h45f, h43f, hdig, hrem2, hloop, fp_set_error]

theorem fp_parse_int64_core_minus {p : fp_parser_t} {m : Nat}
    (hrem : fp_rem p = 45 :: digitsOf m) :
    (m ≤ 2 ^ 63 →
      (fp_parse_int64 p).1 = true ∧ (fp_parse_int64 p).2.1 = -(m : Int)) ∧
    (2 ^ 63 < m →
      (fp_parse_int64 p).1 = false ∧
        (fp_parse_int64 p).2.2.error_code = fp_error_t.FP_ERROR_OVERFLOW) := by
  obtain ⟨c, t, hct, h48, h57⟩ := digitsOf_head_digit m
  have hpeek : fp_peek p = 45 := fp_peek_cons hrem
  have hend : fp_at_end p = false := by
    rw [fp_at_end_false_iff, hrem]
    simp
  have hskip : fp_skip_ws p = p := fp_skip_ws_noop (by rw [hpeek]; decide)
  have h45t : (fp_peek p = 45) = True := by simp [hpeek]
  have hadv : (fp_advance p).2 = fp_consume p 1 := fp_advance_consume hend
  have hrem1 : fp_rem (fp_consume p 1) = digitsOf m := by
    rw [fp_rem_consume, hrem, List.drop_one, List.tail_cons]
  have hdig1 : isDigitByte (fp_peek (fp_consume p 1)) = true := by
    rw [fp_peek_cons (by rw [hrem1, hct])]
    exact isDigitByte_of_digit h48 h57
  have hrem2 : (fp_consume p 1).input.drop (fp_consume p 1).pos = digitsOf m := hrem1
  have hnd : isDigitByte (([] : List Nat).headD 0) = false := by decide
  constructor
  · intro hle
    have hloop := fp_parse_int64_digits_success (2 ^ 63) (by norm_num) (digitsOf m) [] 0
      (fun c hc => digitsOf_mem_digit m c hc) hnd
      (by rw [foldDigits_digitsOf]; exact hle)
    rw [List.append_nil, foldDigits_digitsOf] at hloop
    norm_num at hloop
    constructor <;>
      simp [fp_parse_int64, hskip, hend, h45t, hadv, hdig1, hrem2, hloop]
  · intro hlt
    have hloop := fp_parse_int64_digits_overflow (2 ^ 63) (by norm_num) (digitsOf m) [] 0
      (fun c hc => digitsOf_mem_digit m c hc) (digitsOf_ne_nil m)
      (by rw [foldDigits_digitsOf]; exact hlt)
    rw [List.append_nil] at hloop
    norm_num at hloop
    constructor <;>
      simp [fp_parse_int64, hskip, hend, h45t, hadv, hdig1, hrem2, hloop, fp_set_error]

theorem fp_parse_int64_core_plus {p : fp_parser_t} {m : Nat}
    (hrem : fp_rem p = 43 :: digitsOf m) :
    2 ^ 63 - 1 < m →
      (fp_parse_int64 p).1 = false ∧
        (fp_parse_int64 p).2.2.error_code = fp_error_t.FP_ERROR_OVERFLOW := by
  obtain ⟨c, t, hct, h48, h57⟩ := digitsOf_head_digit m
  have hpeek : fp_peek p = 43 := fp_peek_cons hrem
  have hend : fp_at_end p = false := by
    rw [fp_at_end_false_iff, hrem]
    simp
  have hskip : fp_skip_ws p = p := fp_skip_ws_noop (by rw [hpeek]; decide)
  have h45f : (fp_peek p = 45) = False := by
    rw [hpeek]
    exact eq_false (by omega)
  have h43t : (fp_peek p = 43) = True := by simp [hpeek]
  have hadv : (fp_advance p).2 = fp_consume p 1 := fp_advance_consume hend
  have hrem1 : fp_rem (fp_consume p 1) = digitsOf m := by
    rw [fp_rem_consume, hrem, List.drop_one, List.tail_cons]
  have hdig1 : isDigitByte (fp_peek (fp_consume p 1)) = true := by
    rw [fp_peek_cons (by rw [hrem1, hct])]
    exact isDigitByte_of_digit h48 h57
  have hrem2 : (fp_consume p 1).input.drop (fp_consume p 1).pos = digitsOf m := hrem1
  intro hlt
  have hloop := fp_parse_int64_digits_overflow (2 ^ 63 - 1) (by norm_num) (digitsOf m) [] 0
    (fun c hc => digitsOf_mem_digit m c hc) (digitsOf_ne_nil m)
    (by rw [foldDigits_digitsOf]; exact hlt)
  rw [List.append_nil] at hloop
  norm_num at hloop
  constructor <;>
    simp [fp_parse_int64, hskip, hend, h45f, h43t, hadv, hdig1, hrem2, hloop, fp_set_error]

-- ============================================================================
-- CLAIM C1: signed 64-bit round-trip and overflow boundary
-- ============================================================================

/-- C1: for every signed 64-bit integer `n`, parsing the decimal text form
of `n` succeeds and yields exactly `n`; for the three magnitudes one unit
beyond the signed bounds (`2^63` unsigned, `2^63` with a leading `+`, and
`-(2^63 + 1)`), parsing fails with the `FP_ERROR_OVERFLOW` code. -/
theorem c1_parse_int64_roundtrip_and_overflow :
    (∀ n : Int, -(2 ^ 63) ≤ n → n ≤ 2 ^ 63 - 1 →
      (fp_parse_int64 (fp_init_cstr (int64Render n))).1 = true ∧
      (fp_parse_int64 (fp_init_cstr (int64Render n))).2.1 = n) ∧
    ((fp_parse_int64 (fp_init_cstr (digitsOf (2 ^ 63)))).1 = false ∧
      (fp_parse_int64 (fp_init_cstr (digitsOf (2 ^ 63)))).2.2.error_code
        = fp_error_t.FP_ERROR_OVERFLOW) ∧
    ((fp_parse_int64 (fp_init_cstr (43 :: digitsOf (2 ^ 63)))).1 = false ∧
      (fp_parse_int64 (fp_init_cstr (43 :: digitsOf (2 ^ 63)))).2.2.error_code
        = fp_error_t.FP_ERROR_OVERFLOW) ∧
    ((fp_parse_int64 (fp_init_cstr (45 :: digitsOf (2 ^ 63 + 1)))).1 = false ∧
      (fp_parse_int64 (fp_init_cstr (45 :: digitsOf (2 ^ 63 + 1)))).2.2.error_code
        = fp_error_t.FP_ERROR_OVERFLOW) := by
  have hzi : ((2 : Int) ^ 63) = 9223372036854775808 := by norm_num
  have hzn : ((2 : Nat) ^ 63) = 9223372036854775808 := by norm_num
  refine ⟨?_, ?_, ?_, ?_⟩
  · intro n hlo hhi
    rw [hzi] at hlo hhi
    by_cases hneg : n < 0
    · have hrender : int64Render n = 45 :: digitsOf n.natAbs := by
        rw [int64Render, if_pos hneg]
        rfl
      have hrem : fp_rem (fp_init_cstr (int64Render n)) = 45 :: digitsOf n.natAbs := by
        rw [fp_rem_init_cstr, hrender]
      have habs : n.natAbs ≤ 2 ^ 63 := by
        rw [hzn]
        omega
      have hcore := (fp_parse_int64_core_minus hrem).1 habs
      refine ⟨hcore.1, ?_⟩
      rw [hcore.2]
      omega
    · have hrender : int64Render n = digitsOf n.natAbs := by
        rw [int64Render, if_neg hneg, List.nil_append]
      have hrem : fp_rem (fp_init_cstr (int64Render n)) = digitsOf n.natAbs := by
        rw [fp_rem_init_cstr, hrender]
      have habs : n.natAbs ≤ 2 ^ 63 - 1 := by
        rw [hzn]
        omega
      have hcore := (fp_parse_int64_core_nosign hrem).1 habs
      refine ⟨hcore.1, ?_⟩
      rw [hcore.2]
      omega
  · exact (fp_parse_int64_core_nosign (fp_rem_init_cstr _)).2 (by norm_num)
  · exact fp_parse_int64_core_plus (fp_rem_init_cstr _) (by norm_num)
  · exact (fp_parse_int64_core_minus (fp_rem_init_cstr _)).2 (by norm_num)

theorem c1_parse_int64_roundtrip_witness :
    (fp_parse_int64 (fp_init_cstr (int64Render (-42)))).1 = true ∧
    (fp_parse_int64 (fp_init_cstr (int64Render (-42)))).2.1 = -42 :=
  c1_parse_int64_roundtrip_and_overflow.1 (-42) (by norm_num) (by norm_num)

-- ============================================================================
-- CLAIM C5 GROUNDWORK: the quoted-string scan loop
-- ============================================================================

theorem fp_pqs_scan_le (l : List Nat) : fp_pqs_scan l ≤ l.length := by
  induction l using fp_pqs_scan.induct with
  | case1 => simp [fp_pqs_scan]
  | case2 rest =>
    rw [fp_pqs_scan.eq_def]
    simp
  | case3 h =>
    rw [fp_pqs_scan.eq_def]
    simp
  | case4 c rest h ih =>
    rw [fp_pqs_scan.eq_def]
    simp only [List.length_cons]
    norm_num
    omega
  | case5 c rest h1 h2 ih =>
    rw [fp_pqs_scan.eq_def]
    simp only [List.length_cons, if_neg h1, if_neg h2]
    omega

theorem fp_pqs_scan_of_not_hits {l : List Nat} (h : fp_pqs_hitsQuote l = false) :
    fp_pqs_scan l = l.length := by
  induction l using fp_pqs_scan.induct with
  | case1 => rfl
  | case2 rest =>
    rw [fp_pqs_hitsQuote.eq_def] at h
    norm_num at h
  | case3 hne =>
    rw [fp_pqs_scan.eq_def]
    simp
  | case4 c rest hne ih =>
    rw [fp_pqs_hitsQuote.eq_def] at h
    norm_num at h
    rw [fp_pqs_scan.eq_def]
    simp only [List.length_cons]
    norm_num
    rw [ih h]
    omega
  | case5 c rest h1 h2 ih =>
    rw [fp_pqs_hitsQuote.eq_def] at h
    simp only [if_neg h1, if_neg h2] at h
    rw [fp_pqs_scan.eq_def]
    simp only [List.length_cons, if_neg h1, if_neg h2]
    rw [ih h]
    omega

theorem drop_one_shift (a k : Nat) (l : List Nat) : (a :: l).drop (1 + k) = l.drop k := by
  rw [← List.drop_drop]
  rfl

theorem drop_two_shift (a b k : Nat) (l : List Nat) : (a :: b :: l).drop (2 + k) = l.drop k := by
  rw [← List.drop_drop]
  rfl

theorem fp_pqs_scan_of_hits {l : List Nat} (h : fp_pqs_hitsQuote l = true) :
    (l.drop (fp_pqs_scan l)).headD 0 = 34 := by
  induction l using fp_pqs_scan.induct with
  | case1 => simp [fp_pqs_hitsQuote] at h
  | case2 rest =>
    have hscan : fp_pqs_scan (34 :: rest) = 0 := by
      rw [fp_pqs_scan.eq_def]
      norm_num
    rw [hscan]
    rfl
  | case3 hne =>
    rw [fp_pqs_hitsQuote.eq_def] at h
    norm_num at h
  | case4 c rest hne ih =>
    rw [fp_pqs_hitsQuote.eq_def] at h
    norm_num at h
    have hscan : fp_pqs_scan (92 :: c :: rest) = 2 + fp_pqs_scan rest := by
      rw [fp_pqs_scan.eq_def]
      norm_num
    rw [hscan, drop_two_shift]
    exact ih h
  | case5 c rest h1 h2 ih =>
    rw [fp_pqs_hitsQuote.eq_def] at h
    simp only [if_neg h1, if_neg h2] at h
    have hscan : fp_pqs_scan (c :: rest) = 1 + fp_pqs_scan rest := by
      rw [fp_pqs_scan.eq_def]
      simp only [if_neg h1, if_neg h2]
    rw [hscan, drop_one_shift]
    exact ih h

-- ============================================================================
-- CLAIM C5: quoted-string parsing characterization
-- ============================================================================

/-- C5: `fp_parse_quoted_string` fails exactly when the opening quote is
absent (after whitespace) or the scan loop stopped at end of input instead
of an unescaped closing quote, and in both failure cases the error code is
`FP_ERROR_UNTERMINATED_STRING`.  On success the returned view starts right
after the opening quote, its length is the scan length, the byte right
after the viewed range is the unescaped closing quote, and the view's bytes
are exactly the raw input bytes strictly between the quotes (escape
sequences left undecoded). -/
theorem c5_parse_quoted_string_characterization (p : fp_parser_t) :
    ((fp_parse_quoted_string p).1 = false ↔
      (fp_peek (fp_skip_ws p) ≠ 34 ∨
        fp_pqs_hitsQuote ((fp_rem (fp_skip_ws p)).drop 1) = false)) ∧
    ((fp_parse_quoted_string p).1 = false →
      (fp_parse_quoted_string p).2.2.error_code = fp_error_t.FP_ERROR_UNTERMINATED_STRING) ∧
    ((fp_parse_quoted_string p).1 = true →
      (fp_parse_quoted_string p).2.1.data = (fp_skip_ws p).pos + 1 ∧
      (fp_parse_quoted_string p).2.1.len = fp_pqs_scan ((fp_rem (fp_skip_ws p)).drop 1) ∧
      (fp_rem (fp_skip_ws p)).headD 0 = 34 ∧
      (((fp_rem (fp_skip_ws p)).drop 1).drop (fp_parse_quoted_string p).2.1.len).headD 0 = 34 ∧
      ((fp_parse_quoted_string p).2.2.input.drop (fp_parse_quoted_string p).2.1.data).take
          (fp_parse_quoted_string p).2.1.len
        = ((fp_rem (fp_skip_ws p)).drop 1).take
            (fp_pqs_scan ((fp_rem (fp_skip_ws p)).drop 1))) := by
  by_cases hq34 : fp_peek (fp_skip_ws p) = 34
  · rcases hrq : fp_rem (fp_skip_ws p) with _ | ⟨c0, r⟩
    · rw [fp_peek_rem, hrq] at hq34
      simp at hq34
    · have hc0 : c0 = 34 := by
        rw [fp_peek_rem, hrq] at hq34
        simpa using hq34
      subst hc0
      have hdr1 : List.drop 1 (34 :: r) = r := rfl
      have hmc : fp_match_char (fp_skip_ws p) 34 = (true, fp_consume (fp_skip_ws p) 1) :=
        fp_match_char_true hrq
      have hrem1 : fp_rem (fp_consume (fp_skip_ws p) 1) = r := by
        rw [fp_rem_consume, hrq, hdr1]
      have hscanarg : (fp_consume (fp_skip_ws p) 1).input.drop (fp_consume (fp_skip_ws p) 1).pos
          = r := hrem1
      have hrem2 : fp_rem (fp_consume (fp_consume (fp_skip_ws p) 1) (fp_pqs_scan r))
          = r.drop (fp_pqs_scan r) := by
        rw [fp_rem_consume, hrem1]
      by_cases hhit : fp_pqs_hitsQuote r = true
      · have hhead := fp_pqs_scan_of_hits hhit
        rcases hdrop : r.drop (fp_pqs_scan r) with _ | ⟨c1, s⟩
        · rw [hdrop] at hhead
          simp at hhead
        · have hc1 : c1 = 34 := by
            rw [hdrop] at hhead
            simpa using hhead
          subst hc1
          have hmc2 : fp_match_char (fp_consume (fp_consume (fp_skip_ws p) 1) (fp_pqs_scan r)) 34
              = (true, fp_consume (fp_consume (fp_consume (fp_skip_ws p) 1) (fp_pqs_scan r)) 1) :=
            fp_match_char_true (by rw [hrem2, hdrop])
          have hred : fp_parse_quoted_string p =
              (true,
               ⟨(fp_consume (fp_skip_ws p) 1).pos,
                (fp_consume (fp_consume (fp_consume (fp_skip_ws p) 1) (fp_pqs_scan r)) 1).pos
                  - (fp_consume (fp_skip_ws p) 1).pos - 1⟩,
               fp_consume (fp_consume (fp_consume (fp_skip_ws p) 1) (fp_pqs_scan r)) 1) := by
            simp only [fp_parse_quoted_string, hmc, hscanarg, hmc2]
          have hpos1 : (fp_consume (fp_skip_ws p) 1).pos = (fp_skip_ws p).pos + 1 := by
            simp [fp_consume_pos]
          have hpos3 : (fp_consume (fp_consume (fp_consume (fp_skip_ws p) 1)
              (fp_pqs_scan r)) 1).pos = (fp_skip_ws p).pos + 1 + fp_pqs_scan r + 1 := by
            simp [fp_consume_pos]
          have hlen : (fp_consume (fp_consume (fp_consume (fp_skip_ws p) 1) (fp_pqs_scan r)) 1).pos
              - (fp_consume (fp_skip_ws p) 1).pos - 1 = fp_pqs_scan r := by
            rw [hpos1, hpos3]
            omega
          refine ⟨?_, ?_, ?_⟩
          · rw [hred]
            constructor
            · intro hc
              exact absurd hc (by simp)
            · rintro (hc | hc)
              · exact absurd hq34 hc
              · have hc2 : fp_pqs_hitsQuote r = false := hc
                rw [hhit] at hc2
                exact absurd hc2 (by simp)
          · intro hc
            rw [hred] at hc
            exact absurd hc (by simp)
          · intro _
            rw [hred]
            dsimp only
            rw [hdr1, hlen, hpos1]
            refine ⟨rfl, rfl, rfl, ?_, ?_⟩
            · rw [hdrop]
              rfl
            · have hinp : (fp_consume (fp_consume (fp_consume (fp_skip_ws p) 1)
                  (fp_pqs_scan r)) 1).input = (fp_skip_ws p).input := by
                simp [fp_consume_input]
              rw [hinp]
              have hdr2 : (fp_skip_ws p).input.drop ((fp_skip_ws p).pos + 1) = r := by
                rw [← List.drop_drop]
                exact (congrArg (List.drop 1) hrq).trans hdr1
              rw [hdr2]
      · have hhitf : fp_pqs_hitsQuote r = false := by
          simpa using hhit
        have hscan := fp_pqs_scan_of_not_hits hhitf
        have hrem2n : fp_rem (fp_consume (fp_consume (fp_skip_ws p) 1) (fp_pqs_scan r)) = [] := by
          rw [hrem2, hscan, List.drop_length]
        have hmc2 : fp_match_char (fp_consume (fp_consume (fp_skip_ws p) 1) (fp_pqs_scan r)) 34
            = (false, fp_consume (fp_consume (fp_skip_ws p) 1) (fp_pqs_scan r)) := by
          apply fp_match_char_false
          rw [fp_peek_rem, hrem2n]
          decide
        have hred : fp_parse_quoted_string p =
            (false, FP_VIEW_EMPTY,
             fp_set_error (fp_consume (fp_consume (fp_skip_ws p) 1) (fp_pqs_scan r))
               fp_error_t.FP_ERROR_UNTERMINATED_STRING "Expected closing quote") := by
          simp only [fp_parse_quoted_string, hmc, hscanarg, hmc2]
        refine ⟨?_, ?_, ?_⟩
        · rw [hred, hdr1]
          simp [hhitf]
        · intro _
          rw [hred]
          rfl
        · intro hc
          rw [hred] at hc
          exact absurd hc (by simp)
  · have hmc := fp_match_char_false hq34
    have hred : fp_parse_quoted_string p =
        (false, FP_VIEW_EMPTY,
         fp_set_error (fp_skip_ws p) fp_error_t.FP_ERROR_UNTERMINATED_STRING
           "Expected opening quote") := by
      simp only [fp_parse_quoted_string, hmc]
    refine ⟨?_, ?_, ?_⟩
    · rw [hred]
      simp [hq34]
    · intro _
      rw [hred]
      rfl
    · intro hc
      rw [hred] at hc
      exact absurd hc (by simp)

-- ============================================================================
-- CLAIM C10: csv fields are read after a maximal whitespace skip that
-- includes line terminators
-- ============================================================================

theorem fp_peek_skip_ws_not_ws (p : fp_parser_t) : isWsByte (fp_peek (fp_skip_ws p)) = false := by
  rw [fp_skip_ws, fp_peek_rem, fp_rem_consume, fp_rem, fp_skip_whitespace]
  exact fp_skip_whitespace_scalar_stops _

/-- C10: `fp_parse_csv_field` first skips a maximal whitespace run whose
class includes newline and carriage return, so the field is read from
wherever that skip stops: parsing a field is invariant under pre-skipping,
after the skip the next byte is never whitespace, a field preceded only by
line terminators is taken from the later physical line (input `"\n\nx"`
yields a field with the scanner on line 3), and an empty line does not
produce a zero-field row (input `"a\n\nb"` parses as two one-field rows). -/
theorem c10_csv_field_whitespace_skip :
    (isWsByte 10 = true ∧ isWsByte 13 = true) ∧
    (∀ p : fp_parser_t, fp_parse_csv_field p = fp_parse_csv_field (fp_skip_ws p)) ∧
    (∀ p : fp_parser_t, isWsByte (fp_peek (fp_skip_ws p)) = false) ∧
    ((fp_parse_csv_field (fp_init_cstr [10, 10, 120])).1 = true ∧
      (fp_parse_csv_field (fp_init_cstr [10, 10, 120])).2.2.line = 3) ∧
    ((fp_parse_csv_line (fp_init_cstr [97, 10, 10, 98])).1 = 1 ∧
      (fp_parse_csv_line ((fp_parse_csv_line (fp_init_cstr [97, 10, 10, 98])).2.2)).1 = 1 ∧
      fp_at_end ((fp_parse_csv_line ((fp_parse_csv_line
        (fp_init_cstr [97, 10, 10, 98])).2.2)).2.2) = true) := by
  refine ⟨by decide, ?_, fp_peek_skip_ws_not_ws, by decide, by decide⟩
  intro p
  simp only [fp_parse_csv_field, fp_skip_ws_idem]

-- ============================================================================
-- CLAIM C4 GROUNDWORK: cursor bounds and monotonicity per operation
-- ============================================================================

/-- One parse step is well-behaved: buffer unchanged, cursor moved forward
and still within `[start, end]`. -/
def fpStepOk (p q : fp_parser_t) : Prop :=
  q.input = p.input ∧ q.tail = p.tail ∧ p.pos ≤ q.pos ∧ q.pos ≤ p.input.length

theorem fpStepOk_refl {p : fp_parser_t} (hpos : p.pos ≤ p.input.length) : fpStepOk p p :=
  ⟨rfl, rfl, Nat.le_refl _, hpos⟩

theorem fpStepOk_trans {p q r : fp_parser_t} (h1 : fpStepOk p q) (h2 : fpStepOk q r) :
    fpStepOk p r :=
  ⟨h2.1.trans h1.1, h2.2.1.trans h1.2.1, h1.2.2.1.trans h2.2.2.1, h1.1 ▸ h2.2.2.2⟩

theorem fpStepOk_consume {p : fp_parser_t} {k : Nat} (hk : k ≤ (fp_rem p).length)
    (hpos : p.pos ≤ p.input.length) : fpStepOk p (fp_consume p k) := by
  refine ⟨rfl, rfl, by rw [fp_consume_pos]; omega, ?_⟩
  rw [fp_consume_pos]
  rw [fp_rem, List.length_drop] at hk
  omega

theorem fpStepOk_set_error {p q : fp_parser_t} (h : fpStepOk p q) (code : fp_error_t)
    (msg : String) : fpStepOk p (fp_set_error q code msg) := h

theorem fpStepOk_skip_ws {p : fp_parser_t} (hpos : p.pos ≤ p.input.length) :
    fpStepOk p (fp_skip_ws p) := by
  rw [fp_skip_ws]
  exact fpStepOk_consume (by rw [fp_rem]; exact fp_skip_whitespace_le _) hpos

theorem fpStepOk_advance {p : fp_parser_t} (hpos : p.pos ≤ p.input.length) :
    fpStepOk p (fp_advance p).2 := by
  by_cases hend : fp_at_end p = true
  · rw [fp_advance, if_pos hend]
    exact fpStepOk_refl hpos
  · have hend2 : fp_at_end p = false := by simpa using hend
    rw [fp_advance_consume hend2]
    apply fpStepOk_consume _ hpos
    rw [fp_at_end_false_iff] at hend2
    rw [fp_rem] at hend2 ⊢
    cases hc : p.input.drop p.pos with
    | nil => exact absurd hc hend2
    | cons a t => simp [hc]

theorem fpStepOk_match_char {p : fp_parser_t} (e : Nat) (hpos : p.pos ≤ p.input.length) :
    fpStepOk p (fp_match_char p e).2 := by
  rw [fp_match_char]
  split
  · exact fpStepOk_advance hpos
  · exact fpStepOk_refl hpos

theorem fpStepOk_match_str {p : fp_parser_t} (s : List Nat) (hpos : p.pos ≤ p.input.length) :
    fpStepOk p (fp_match_str p s).2 := by
  rw [fp_match_str]
  split
  case isTrue h =>
    have hrm := h.1
    rw [fp_remaining] at hrm
    refine ⟨rfl, rfl, ?_, ?_⟩ <;> dsimp only <;> omega
  case isFalse h => exact fpStepOk_refl hpos

theorem countLeading_le (f : Nat → Bool) (l : List Nat) : countLeading f l ≤ l.length := by
  induction l with
  | nil => simp [countLeading]
  | cons c t ih =>
    rw [countLeading]
    split <;> simp <;> omega

theorem fp_parse_int64_digits_consumed_le (maxVal v : Nat) (l : List Nat) :
    (fp_parse_int64_digits maxVal v l).2.2 ≤ l.length := by
  induction l generalizing v with
  | nil => simp [fp_parse_int64_digits]
  | cons c t ih =>
    rw [fp_parse_int64_digits]
    by_cases hd : isDigitByte c = true
    · simp only [hd, if_true]
      by_cases hg : v > (maxVal - (c - 48)) / 10
      · simp [hg]
      · simp only [if_neg hg]
        have := ih (v * 10 + (c - 48))
        simp only [List.length_cons]
        omega
    · simp [hd]

theorem fp_csv_bare_scan_le (l : List Nat) : fp_csv_bare_scan l ≤ l.length := by
  induction l with
  | nil => simp [fp_csv_bare_scan]
  | cons c t ih =>
    rw [fp_csv_bare_scan]
    split <;> simp <;> omega

theorem strtodSign_le (l : List Nat) : strtodSign l ≤ l.length := by
  cases l with
  | nil => decide
  | cons c t =>
    rw [strtodSign]
    split <;> simp

theorem strtodHasPoint_ne_nil {l : List Nat} (h : strtodHasPoint l = true) : 1 ≤ l.length := by
  cases l with
  | nil => exact absurd h (by decide)
  | cons c t => simp

theorem strtodExp_le (l : List Nat) : strtodExp l ≤ l.length := by
  cases l with
  | nil => decide
  | cons c t =>
    rw [strtodExp]
    split
    · have hd1 : (c :: t).drop 1 = t := rfl
      rw [hd1]
      dsimp only
      have h1 := strtodSign_le t
      have h2 := countLeading_le isDigitByte (t.drop (strtodSign t))
      have h3 : (t.drop (strtodSign t)).length = t.length - strtodSign t := List.length_drop _ _
      split <;> simp only [List.length_cons] <;> omega
    · simp

theorem fp_strtod_consumed_le (l : List Nat) : fp_strtod_consumed l ≤ l.length := by
  rw [fp_strtod_consumed]
  dsimp only
  have hws := countLeading_le isSpaceByte l
  set ws := countLeading isSpaceByte l with hws_def
  set r1 := l.drop ws with hr1_def
  have hlr1 : r1.length = l.length - ws := List.length_drop _ _
  have hsgn := strtodSign_le r1
  set sgn := strtodSign r1 with hsgn_def
  set r2 := r1.drop sgn with hr2_def
  have hlr2 : r2.length = r1.length - sgn := List.length_drop _ _
  have hdi := countLeading_le isDigitByte r2
  set di := countLeading isDigitByte r2 with hdi_def
  set r3 := r2.drop di with hr3_def
  have hlr3 : r3.length = r2.length - di := List.length_drop _ _
  have hdf : (if strtodHasPoint r3 then countLeading isDigitByte (r3.drop 1) else 0) +
      (if strtodHasPoint r3 then 1 else 0) ≤ r3.length := by
    by_cases hp : strtodHasPoint r3 = true
    · have h1 := strtodHasPoint_ne_nil hp
      have h2 := countLeading_le isDigitByte (r3.drop 1)
      have h3 : (r3.drop 1).length = r3.length - 1 := List.length_drop _ _
      simp only [hp, if_true]
      omega
    · simp [hp]
  set df := (if strtodHasPoint r3 then countLeading isDigitByte (r3.drop 1) else 0)
    with hdf_def
  by_cases hmain : di + df = 0
  · rw [if_pos hmain]
    omega
  · rw [if_neg hmain]
    set mant := di + (if strtodHasPoint r3 then 1 + df else 0) with hmant_def
    have hmant_le : mant ≤ r2.length := by
      rw [hmant_def]
      by_cases hp : strtodHasPoint r3 = true
      · simp only [hp, if_true] at hdf ⊢
        omega
      · have hp2 : strtodHasPoint r3 = false := by simpa using hp
        simp only [hp2, Bool.false_eq_true, if_false]
        omega
    have hex := strtodExp_le (r2.drop mant)
    have hlr4 : (r2.drop mant).length = r2.length - mant := List.length_drop _ _
    omega

theorem fpStepOk_pos_bound {p q : fp_parser_t} (h : fpStepOk p q) : q.pos ≤ q.input.length := by
  rw [h.1]
  exact h.2.2.2

theorem fpStepOk_parse_int64 {p : fp_parser_t} (hpos : p.pos ≤ p.input.length) :
    fpStepOk p (fp_parse_int64 p).2.2 := by
  rw [fp_parse_int64]
  dsimp only
  have h1 := fpStepOk_skip_ws hpos
  set q := fp_skip_ws p with hqdef
  have hqpos : q.pos ≤ q.input.length := fpStepOk_pos_bound h1
  split
  · exact fpStepOk_set_error h1 _ _
  · set p2 := if fp_peek q = 45 ∨ fp_peek q = 43 then (fp_advance q).2 else q with hp2def
    have h2 : fpStepOk q p2 := by
      rw [hp2def]
      split
      · exact fpStepOk_advance hqpos
      · exact fpStepOk_refl hqpos
    have hp2pos : p2.pos ≤ p2.input.length := fpStepOk_pos_bound h2
    split
    · exact fpStepOk_set_error (fpStepOk_trans h1 h2) _ _
    · have h3 : ∀ M : Nat, fpStepOk p2 (fp_consume p2
          (fp_parse_int64_digits M 0 (p2.input.drop p2.pos)).2.2) := by
        intro M
        apply fpStepOk_consume _ hp2pos
        rw [fp_rem]
        exact fp_parse_int64_digits_consumed_le _ _ _
      split <;> split <;>
        first
        | exact fpStepOk_trans (fpStepOk_trans h1 h2) (h3 _)
        | exact fpStepOk_set_error (fpStepOk_trans (fpStepOk_trans h1 h2) (h3 _)) _ _

theorem fpStepOk_parse_double {p : fp_parser_t} (htail : p.tail = [])
    (hpos : p.pos ≤ p.input.length) : fpStepOk p (fp_parse_double p).2 := by
  rw [fp_parse_double]
  have h1 := fpStepOk_skip_ws hpos
  set q := fp_skip_ws p with hqdef
  have hqpos : q.pos ≤ q.input.length := fpStepOk_pos_bound h1
  have hqt : q.tail = [] := by rw [h1.2.1, htail]
  rw [hqt, List.append_nil]
  split
  · exact fpStepOk_set_error h1 _ _
  · have hc := fp_strtod_consumed_le (q.input.drop q.pos)
    have hlen : (q.input.drop q.pos).length = q.input.length - q.pos := List.length_drop _ _
    refine fpStepOk_trans h1 ⟨rfl, hqt.symm, ?_, ?_⟩ <;> dsimp only <;> omega

theorem fpStepOk_parse_quoted_string {p : fp_parser_t} (hpos : p.pos ≤ p.input.length) :
    fpStepOk p (fp_parse_quoted_string p).2.2 := by
  rw [fp_parse_quoted_string]
  dsimp only
  have h1 := fpStepOk_skip_ws hpos
  set q := fp_skip_ws p with hqdef
  have hqpos : q.pos ≤ q.input.length := fpStepOk_pos_bound h1
  have h2 : fpStepOk q (fp_match_char q 34).2 := fpStepOk_match_char 34 hqpos
  rcases hmc : fp_match_char q 34 with ⟨b, p1⟩
  rw [hmc] at h2
  cases b
  · dsimp only
    exact fpStepOk_set_error (fpStepOk_trans h1 h2) _ _
  · dsimp only
    have hp1pos : p1.pos ≤ p1.input.length := fpStepOk_pos_bound h2
    have h3 : fpStepOk p1 (fp_consume p1 (fp_pqs_scan (p1.input.drop p1.pos))) := by
      apply fpStepOk_consume _ hp1pos
      rw [fp_rem]
      exact fp_pqs_scan_le _
    set p2 := fp_consume p1 (fp_pqs_scan (p1.input.drop p1.pos)) with hp2def
    have hp2pos : p2.pos ≤ p2.input.length := fpStepOk_pos_bound h3
    have h4 : fpStepOk p2 (fp_match_char p2 34).2 := fpStepOk_match_char 34 hp2pos
    rcases hmc2 : fp_match_char p2 34 with ⟨b2, p3⟩
    rw [hmc2] at h4
    have hall : fpStepOk p p3 :=
      fpStepOk_trans (fpStepOk_trans (fpStepOk_trans h1 h2) h3) h4
    cases b2
    · dsimp only
      exact fpStepOk_set_error hall _ _
    · dsimp only
      exact hall

theorem fpStepOk_parse_csv_field {p : fp_parser_t} (hpos : p.pos ≤ p.input.length) :
    fpStepOk p (fp_parse_csv_field p).2.2 := by
  rw [fp_parse_csv_field]
  dsimp only
  have h1 := fpStepOk_skip_ws hpos
  set q := fp_skip_ws p with hqdef
  have hqpos : q.pos ≤ q.input.length := fpStepOk_pos_bound h1
  split
  · exact h1
  · split
    · exact fpStepOk_trans h1 (fpStepOk_parse_quoted_string hqpos)
    · dsimp only
      apply fpStepOk_trans h1
      apply fpStepOk_consume _ hqpos
      rw [fp_rem]
      exact fp_csv_bare_scan_le _

theorem fpStepOk_csv_line_loop (b : Nat) :
    ∀ (p : fp_parser_t) (count : Nat) (fields : List fp_view_t), p.pos ≤ p.input.length →
      fpStepOk p (fp_csv_line_loop b p count fields).2.2 := by
  induction b with
  | zero =>
    intro p count fields hpos
    exact fpStepOk_refl hpos
  | succ b ih =>
    intro p count fields hpos
    rw [fp_csv_line_loop]
    split
    · exact fpStepOk_refl hpos
    · rcases hf : fp_parse_csv_field p with ⟨ok, fld, p1⟩
      have h1 : fpStepOk p p1 := by
        have h := fpStepOk_parse_csv_field hpos
        rw [hf] at h
        exact h
      cases ok
      · dsimp only
        exact h1
      · dsimp only
        have hp1pos : p1.pos ≤ p1.input.length := fpStepOk_pos_bound h1
        have h2 : fpStepOk p1 (fp_match_char p1 44).2 := fpStepOk_match_char 44 hp1pos
        rcases hmc : fp_match_char p1 44 with ⟨mb, p2⟩
        rw [hmc] at h2
        cases mb
        · dsimp only
          exact fpStepOk_trans h1 h2
        · dsimp only
          exact fpStepOk_trans (fpStepOk_trans h1 h2)
            (ih p2 _ _ (fpStepOk_pos_bound h2))

theorem fpStepOk_parse_csv_line {p : fp_parser_t} (hpos : p.pos ≤ p.input.length) :
    fpStepOk p (fp_parse_csv_line p).2.2 := by
  rw [fp_parse_csv_line]
  rcases hl : fp_csv_line_loop FP_CSV_MAX_FIELDS p 0 [] with ⟨count, fields, p1⟩
  have h1 : fpStepOk p p1 := by
    have h := fpStepOk_csv_line_loop FP_CSV_MAX_FIELDS p 0 [] hpos
    rw [hl] at h
    exact h
  dsimp only
  have h2 : fpStepOk p1 (fp_match_char p1 13).2 :=
    fpStepOk_match_char 13 (fpStepOk_pos_bound h1)
  exact fpStepOk_trans (fpStepOk_trans h1 h2)
    (fpStepOk_match_char 10 (fpStepOk_pos_bound h2))

theorem fpApply_ok (op : FpOp) {p : fp_parser_t} (htail : p.tail = [])
    (hpos : p.pos ≤ p.input.length) : fpStepOk p (fpApply op p) := by
  cases op with
  | advance => exact fpStepOk_advance hpos
  | skipWs => exact fpStepOk_skip_ws hpos
  | matchChar c => exact fpStepOk_match_char c hpos
  | matchStr s => exact fpStepOk_match_str s hpos
  | parseInt64 => exact fpStepOk_parse_int64 hpos
  | parseDouble => exact fpStepOk_parse_double htail hpos
  | parseQuotedString => exact fpStepOk_parse_quoted_string hpos
  | parseCsvField => exact fpStepOk_parse_csv_field hpos
  | parseCsvLine => exact fpStepOk_parse_csv_line hpos

theorem fpApplyAll_ok (ops : List FpOp) :
    ∀ (p : fp_parser_t), p.tail = [] → p.pos ≤ p.input.length →
      fpStepOk p (fpApplyAll ops p) := by
  induction ops with
  | nil =>
    intro p _ hpos
    exact fpStepOk_refl hpos
  | cons op rest ih =>
    intro p htail hpos
    have h1 := fpApply_ok op htail hpos
    have h2 := ih (fpApply op p) (by rw [h1.2.1, htail]) (fpStepOk_pos_bound h1)
    exact fpStepOk_trans h1 h2

theorem fpApplyAll_append (pre ops : List FpOp) (p : fp_parser_t) :
    fpApplyAll (pre ++ ops) p = fpApplyAll ops (fpApplyAll pre p) := by
  simp [fpApplyAll, List.foldl_append]

-- ============================================================================
-- CLAIM C4: scanner invariant and monotonicity (corrected: fp_parse_double
-- can overshoot end when the allocation continues past it)
-- ============================================================================

/-- C4 counterexample: a scanner from `fp_init` over the first byte of the
buffer `"12"` (so `end` is before the `2`).  `fp_parse_double` hands the
NUL-terminated buffer to `strtod`, which consumes both digits, and the
cursor lands at offset 2 — strictly beyond `end` (offset 1), violating
`current <= end`. -/
theorem c4_invariant_counterexample :
    (fp_init [49, 50] 1).pos ≤ (fp_init [49, 50] 1).input.length ∧
    (fpApply FpOp.parseDouble (fp_init [49, 50] 1)).pos = 2 ∧
    (fp_init [49, 50] 1).input.length = 1 ∧
    ¬((fpApply FpOp.parseDouble (fp_init [49, 50] 1)).pos
        ≤ (fp_init [49, 50] 1).input.length) := by
  refine ⟨?_, ?_, ?_, ?_⟩ <;> decide

/-- C4 (amended): for every scanner created by `fp_init` over a buffer
whose readable allocation ends at `end` (`buffer.length ≤ len`, as with
`fp_init_cstr`), every sequence of parse operations — `fp_advance`,
`fp_skip_ws`, `fp_match_char`, `fp_match_str`, `fp_parse_int64`,
`fp_parse_double`, `fp_parse_quoted_string`, `fp_parse_csv_field`,
`fp_parse_csv_line` — preserves the buffer, keeps
`start <= current <= end`, and moves `current` monotonically forward:
the cursor after `pre ++ ops` is at least the cursor after `pre`. -/
theorem c4_scanner_invariant_amended (pre ops : List FpOp) (buffer : List Nat) (len : Nat)
    (hbuf : buffer.length ≤ len) :
    (fpApplyAll (pre ++ ops) (fp_init buffer len)).input = (fp_init buffer len).input ∧
    (fpApplyAll (pre ++ ops) (fp_init buffer len)).pos ≤ (fp_init buffer len).input.length ∧
    (fpApplyAll pre (fp_init buffer len)).pos
      ≤ (fpApplyAll (pre ++ ops) (fp_init buffer len)).pos := by
  have htail : (fp_init buffer len).tail = [] := by
    simp only [fp_init]
    rw [List.drop_eq_nil_iff]
    exact hbuf
  have hpos : (fp_init buffer len).pos ≤ (fp_init buffer len).input.length := by
    simp [fp_init]
  have hpre := fpApplyAll_ok pre (fp_init buffer len) htail hpos
  have hops := fpApplyAll_ok ops (fpApplyAll pre (fp_init buffer len))
    (by rw [hpre.2.1, htail]) (fpStepOk_pos_bound hpre)
  rw [fpApplyAll_append]
  have hall := fpStepOk_trans hpre hops
  exact ⟨hall.1, hall.2.2.2, hops.2.2.1⟩

theorem c4_scanner_invariant_witness :
    [52, 50].length ≤ 2 ∧
    ((fpApplyAll ([FpOp.skipWs] ++ [FpOp.parseInt64]) (fp_init [52, 50] 2)).input
        = (fp_init [52, 50] 2).input ∧
      (fpApplyAll ([FpOp.skipWs] ++ [FpOp.parseInt64]) (fp_init [52, 50] 2)).pos
        ≤ (fp_init [52, 50] 2).input.length ∧
      (fpApplyAll [FpOp.skipWs] (fp_init [52, 50] 2)).pos
        ≤ (fpApplyAll ([FpOp.skipWs] ++ [FpOp.parseInt64]) (fp_init [52, 50] 2)).pos) :=
  ⟨by decide, c4_scanner_invariant_amended [FpOp.skipWs] [FpOp.parseInt64] [52, 50] 2 (by decide)⟩

-- ============================================================================
-- CLAIM C6 GROUNDWORK: parsing a rendered CSV document
-- ============================================================================

theorem fp_csv_bare_scan_exact {c : List Nat} (rest : List Nat)
    (hc : ∀ b ∈ c, b ≠ 44 ∧ b ≠ 10 ∧ b ≠ 13)
    (hd : rest.headD 0 = 44 ∨ rest.headD 0 = 10) :
    fp_csv_bare_scan (c ++ rest) = c.length := by
  induction c with
  | nil =>
    cases rest with
    | nil => simp at hd
    | cons d t =>
      simp only [List.headD_cons] at hd
      rw [List.nil_append, fp_csv_bare_scan]
      rcases hd with h | h <;> simp [h]
  | cons b t ih =>
    have hb := hc b (by simp)
    rw [List.cons_append, fp_csv_bare_scan,
      if_neg (by push_neg; exact hb), ih (fun x hx => hc x (by simp [hx]))]
    simp [Nat.add_comm]

theorem fp_pqs_scan_quoted {c : List Nat} (rest : List Nat)
    (hc : ∀ b ∈ c, b ≠ 34 ∧ b ≠ 92) :
    fp_pqs_scan (c ++ 34 :: rest) = c.length ∧
    fp_pqs_hitsQuote (c ++ 34 :: rest) = true := by
  induction c with
  | nil =>
    constructor
    · rw [List.nil_append, fp_pqs_scan.eq_def]
      norm_num
    · rw [List.nil_append, fp_pqs_hitsQuote.eq_def]
      norm_num
  | cons b t ih =>
    have hb := hc b (by simp)
    have iht := ih (fun x hx => hc x (by simp [hx]))
    constructor
    · rw [List.cons_append, fp_pqs_scan.eq_def]
      simp only [if_neg hb.1, if_neg hb.2, iht.1, List.length_cons]
      omega
    · rw [List.cons_append, fp_pqs_hitsQuote.eq_def]
      simp only [if_neg hb.1, if_neg hb.2, iht.2]

theorem fp_parse_csv_field_render {p : fp_parser_t} {f : CsvField} {d : Nat} {rest : List Nat}
    (hrem : fp_rem p = renderField f ++ d :: rest) (hd : d = 44 ∨ d = 10)
    (hv : fieldValid f = true) :
    (fp_parse_csv_field p).1 = true ∧
    (fp_parse_csv_field p).2.2 = fp_consume p (renderField f).length := by
  cases f with
  | bare c =>
    rw [fieldValid] at hv
    simp only [Bool.and_eq_true, decide_eq_true_eq, Bool.not_eq_true', List.all_eq_true,
      decide_eq_true_eq] at hv
    obtain ⟨⟨hne, hws⟩, hall⟩ := hv
    rw [renderField] at hrem
    obtain ⟨b, t, hbt⟩ := List.exists_cons_of_ne_nil hne
    subst hbt
    have hbmem := hall b (by simp)
    have hshape : fp_rem p = b :: (t ++ d :: rest) := by
      rw [hrem]
      simp
    have hpk : fp_peek p = b := fp_peek_cons hshape
    have hskip : fp_skip_ws p = p := by
      apply fp_skip_ws_noop
      rw [hpk]
      simpa using hws
    have hend : fp_at_end p = false := by
      rw [fp_at_end_false_iff, hshape]
      simp
    have h34 : (fp_peek p = 34) = False := by
      rw [hpk]
      exact eq_false hbmem.2.2.2
    have hrem2 : p.input.drop p.pos = (b :: t) ++ d :: rest := hrem
    have hscan : fp_csv_bare_scan (b :: (t ++ d :: rest)) = t.length + 1 := by
      have h : fp_csv_bare_scan ((b :: t) ++ d :: rest) = (b :: t).length := by
        apply fp_csv_bare_scan_exact
        · intro x hx
          exact ⟨(hall x hx).1, (hall x hx).2.1, (hall x hx).2.2.1⟩
        · simpa using hd
      simpa using h
    constructor <;>
      simp [fp_parse_csv_field, hskip, hend, h34, hrem2, hscan, renderField]
  | quoted c =>
    rw [fieldValid] at hv
    simp only [List.all_eq_true, decide_eq_true_eq] at hv
    have hshape : fp_rem p = 34 :: (c ++ 34 :: d :: rest) := by
      rw [hrem, renderField]
      simp
    have hpk : fp_peek p = 34 := fp_peek_cons hshape
    have hskip : fp_skip_ws p = p := by
      apply fp_skip_ws_noop
      rw [hpk]
      decide
    have hend : fp_at_end p = false := by
      rw [fp_at_end_false_iff, hshape]
      simp
    have hmc : fp_match_char p 34 = (true, fp_consume p 1) := fp_match_char_true hshape
    have hrem1 : fp_rem (fp_consume p 1) = c ++ 34 :: d :: rest := by
      rw [fp_rem_consume, hshape]
      rfl
    have hscan := (fp_pqs_scan_quoted (d :: rest) hv).1
    have hscanarg : (fp_consume p 1).input.drop (fp_consume p 1).pos = c ++ 34 :: d :: rest :=
      hrem1
    have hrem2 : fp_rem (fp_consume (fp_consume p 1) (fp_pqs_scan (c ++ 34 :: d :: rest)))
        = 34 :: d :: rest := by
      rw [fp_rem_consume, hrem1, hscan, List.drop_left]
    have hmc2 : fp_match_char (fp_consume (fp_consume p 1) (fp_pqs_scan (c ++ 34 :: d :: rest))) 34
        = (true, fp_consume (fp_consume (fp_consume p 1) (fp_pqs_scan (c ++ 34 :: d :: rest))) 1) :=
      fp_match_char_true hrem2
    have hfield : fp_parse_csv_field p = fp_parse_quoted_string p := by
      rw [fp_parse_csv_field]
      simp only [hskip, hend, hpk, if_true, Bool.false_eq_true, if_false, if_pos rfl]
    have hpqs : fp_parse_quoted_string p =
        (true,
         ⟨(fp_consume p 1).pos,
          (fp_consume (fp_consume (fp_consume p 1) (fp_pqs_scan (c ++ 34 :: d :: rest))) 1).pos
            - (fp_consume p 1).pos - 1⟩,
         fp_consume (fp_consume (fp_consume p 1) (fp_pqs_scan (c ++ 34 :: d :: rest))) 1) := by
      simp only [fp_parse_quoted_string, hskip, hmc, hscanarg, hmc2]
    have hlen : (renderField (CsvField.quoted c)).length = 1 + (fp_pqs_scan (c ++ 34 :: d :: rest) + 1) := by
      rw [renderField, hscan]
      simp
      omega
    rw [hfield, hpqs]
    refine ⟨rfl, ?_⟩
    rw [fp_consume_consume, fp_consume_consume, hlen]

theorem fp_csv_line_loop_render :
    ∀ (r : List CsvField) (b n : Nat) (acc : List fp_view_t) (p : fp_parser_t) (rest : List Nat),
      (∀ f ∈ r, fieldValid f = true) → r ≠ [] → r.length ≤ b →
      fp_rem p = renderRow r ++ 10 :: rest →
      (fp_csv_line_loop b p n acc).1 = n + r.length ∧
      (fp_csv_line_loop b p n acc).2.2 = fp_consume p (renderRow r).length := by
  intro r
  induction r with
  | nil =>
    intro _ _ _ _ _ _ hne _ _
    exact absurd rfl hne
  | cons f tf ih =>
    intro b n acc p rest hv _ hb hrem
    obtain ⟨b2, rfl⟩ : ∃ b2, b = b2 + 1 := ⟨b - 1, by simp at hb; omega⟩
    cases tf with
    | nil =>
      have hrr : renderRow [f] = renderField f := rfl
      rw [hrr] at hrem
      have hfield := fp_parse_csv_field_render hrem (Or.inr rfl) (hv f (by simp))
      have hend : fp_at_end p = false := by
        rw [fp_at_end_false_iff, hrem]
        simp
      rcases hfp : fp_parse_csv_field p with ⟨ok, v, p1⟩
      rw [hfp] at hfield
      obtain ⟨hok, hp1⟩ := hfield
      simp only at hok hp1
      subst hok
      subst hp1
      have hrem1 : fp_rem (fp_consume p (renderField f).length) = 10 :: rest := by
        rw [fp_rem_consume, hrem, List.drop_left]
      have hmc : fp_match_char (fp_consume p (renderField f).length) 44
          = (false, fp_consume p (renderField f).length) := by
        apply fp_match_char_false
        rw [fp_peek_cons hrem1]
        omega
      rw [fp_csv_line_loop]
      simp only [hend, Bool.false_eq_true, if_false, hfp, hmc, hrr]
      constructor <;> simp
    | cons g tg =>
      have hrr : renderRow (f :: g :: tg) = renderField f ++ 44 :: renderRow (g :: tg) := rfl
      have hrem2 : fp_rem p = renderField f ++ 44 :: (renderRow (g :: tg) ++ 10 :: rest) := by
        rw [hrem, hrr]
        simp
      have hfield := fp_parse_csv_field_render hrem2 (Or.inl rfl) (hv f (by simp))
      have hend : fp_at_end p = false := by
        rw [fp_at_end_false_iff, hrem2]
        simp
      rcases hfp : fp_parse_csv_field p with ⟨ok, v, p1⟩
      rw [hfp] at hfield
      obtain ⟨hok, hp1⟩ := hfield
      simp only at hok hp1
      subst hok
      subst hp1
      have hrem1 : fp_rem (fp_consume p (renderField f).length)
          = 44 :: (renderRow (g :: tg) ++ 10 :: rest) := by
        rw [fp_rem_consume, hrem2, List.drop_left]
      have hmc : fp_match_char (fp_consume p (renderField f).length) 44
          = (true, fp_consume (fp_consume p (renderField f).length) 1) :=
        fp_match_char_true hrem1
      have hrem3 : fp_rem (fp_consume (fp_consume p (renderField f).length) 1)
          = renderRow (g :: tg) ++ 10 :: rest := by
        rw [fp_rem_consume, hrem1]
        rfl
      have hih := ih b2 (n + 1) (acc ++ [v]) (fp_consume (fp_consume p (renderField f).length) 1)
        rest (fun x hx => hv x (by simp [hx])) (by simp) (by simp at hb ⊢; omega) hrem3
      rw [fp_csv_line_loop]
      simp only [hend, Bool.false_eq_true, if_false, hfp, hmc]
      refine ⟨?_, ?_⟩
      · rw [hih.1]
        simp
        omega
      · rw [hih.2, fp_consume_consume, fp_consume_consume, hrr]
        have hlen : (renderField f).length + (1 + (renderRow (g :: tg)).length)
            = (renderField f ++ 44 :: renderRow (g :: tg)).length := by
          simp
          omega
        rw [hlen]

theorem fp_parse_csv_line_render {r : List CsvField} {p : fp_parser_t} {rest : List Nat}
    (hv : rowValid r = true) (hrem : fp_rem p = renderRow r ++ 10 :: rest) :
    (fp_parse_csv_line p).1 = r.length ∧
    (fp_parse_csv_line p).2.2 = fp_consume p ((renderRow r).length + 1) := by
  rw [rowValid] at hv
  simp only [Bool.and_eq_true, decide_eq_true_eq, List.all_eq_true] at hv
  obtain ⟨⟨h1, h64⟩, hall⟩ := hv
  have hloop := fp_csv_line_loop_render r FP_CSV_MAX_FIELDS 0 [] p rest hall
    (by intro he; rw [he] at h1; simp at h1) h64 hrem
  rw [fp_parse_csv_line]
  rcases hl : fp_csv_line_loop FP_CSV_MAX_FIELDS p 0 [] with ⟨count, fields, p1⟩
  rw [hl] at hloop
  obtain ⟨hcount, hp1⟩ := hloop
  simp only at hcount hp1
  subst hp1
  have hrem1 : fp_rem (fp_consume p (renderRow r).length) = 10 :: rest := by
    rw [fp_rem_consume, hrem, List.drop_left]
  have hmc13 : fp_match_char (fp_consume p (renderRow r).length) 13
      = (false, fp_consume p (renderRow r).length) := by
    apply fp_match_char_false
    rw [fp_peek_cons hrem1]
    omega
  have hmc10 : fp_match_char (fp_consume p (renderRow r).length) 10
      = (true, fp_consume (fp_consume p (renderRow r).length) 1) :=
    fp_match_char_true hrem1
  simp only [hmc13, hmc10]
  exact ⟨by simpa using hcount, fp_consume_consume p _ 1⟩

theorem fp_csv_row_calls_render :
    ∀ (rows : List (List CsvField)) (fuel : Nat) (p : fp_parser_t),
      csvValid rows = true → rows.length ≤ fuel →
      fp_rem p = renderRows rows →
      fp_csv_row_calls fuel p = rows.length := by
  intro rows
  induction rows with
  | nil =>
    intro fuel p _ _ hrem
    have hend : fp_at_end p = true := by
      rw [fp_at_end_iff, hrem]
      rfl
    cases fuel with
    | zero => rfl
    | succ f2 =>
      rw [fp_csv_row_calls]
      simp [hend]
  | cons r rs ih =>
    intro fuel p hv hf hrem
    rw [csvValid] at hv
    simp only [List.all_cons, Bool.and_eq_true] at hv
    obtain ⟨f2, rfl⟩ : ∃ f2, fuel = f2 + 1 := ⟨fuel - 1, by simp at hf; omega⟩
    have hrr : renderRows (r :: rs) = renderRow r ++ 10 :: renderRows rs := rfl
    rw [hrr] at hrem
    have hend : fp_at_end p = false := by
      rw [fp_at_end_false_iff, hrem]
      simp
    have hline := fp_parse_csv_line_render hv.1 hrem
    have hrem2 : fp_rem ((fp_parse_csv_line p).2.2) = renderRows rs := by
      rw [hline.2, fp_rem_consume, hrem]
      rw [show (renderRow r).length + 1 = (renderRow r ++ [10]).length by simp]
      rw [show renderRow r ++ 10 :: renderRows rs = (renderRow r ++ [10]) ++ renderRows rs by simp]
      rw [List.drop_left]
    rw [fp_csv_row_calls]
    simp only [hend, Bool.false_eq_true, if_false]
    rw [ih f2 _ (by rw [csvValid]; exact hv.2) (by simp at hf ⊢; omega) hrem2]
    simp [Nat.add_comm]

theorem refRowsGo_quoted {c : List Nat} (hc : ∀ b ∈ c, b ≠ 34) :
    ∀ (rest : List Nat) (s : Bool),
      refRowsGo (c ++ 34 :: rest) true s = refRowsGo rest false true := by
  induction c with
  | nil =>
    intro rest s
    rw [List.nil_append, refRowsGo]
    norm_num
  | cons b t ih =>
    intro rest s
    have hb := hc b (by simp)
    rw [List.cons_append, refRowsGo, if_neg (by simp), if_neg hb]
    exact ih (fun x hx => hc x (by simp [hx])) rest true

theorem refRowsGo_bare_tail {c : List Nat} (hc : ∀ b ∈ c, b ≠ 34 ∧ b ≠ 10) :
    ∀ rest : List Nat,
      refRowsGo (c ++ rest) false true = refRowsGo rest false true := by
  induction c with
  | nil =>
    intro rest
    rw [List.nil_append]
  | cons b t ih =>
    intro rest
    have hb := hc b (by simp)
    rw [List.cons_append, refRowsGo, if_neg (by simp [hb.2]), if_neg hb.1]
    exact ih (fun x hx => hc x (by simp [hx])) rest

theorem refRowsGo_field {f : CsvField} (hv : fieldValid f = true) :
    ∀ (rest : List Nat) (s : Bool),
      refRowsGo (renderField f ++ rest) false s = refRowsGo rest false true := by
  cases f with
  | bare c =>
    rw [fieldValid] at hv
    simp only [Bool.and_eq_true, decide_eq_true_eq, Bool.not_eq_true', List.all_eq_true,
      decide_eq_true_eq] at hv
    obtain ⟨⟨hne, _⟩, hall⟩ := hv
    obtain ⟨b, t, hbt⟩ := List.exists_cons_of_ne_nil hne
    subst hbt
    intro rest s
    have hb := hall b (by simp)
    rw [renderField, List.cons_append, refRowsGo, if_neg (by simp [hb.2.1]),
      if_neg hb.2.2.2]
    exact refRowsGo_bare_tail
      (fun x hx => ⟨(hall x (by simp [hx])).2.2.2, (hall x (by simp [hx])).2.1⟩) rest
  | quoted c =>
    rw [fieldValid] at hv
    simp only [List.all_eq_true, decide_eq_true_eq] at hv
    intro rest s
    have hsh : renderField (CsvField.quoted c) ++ rest = 34 :: (c ++ 34 :: rest) := by
      rw [renderField]
      simp
    rw [hsh, refRowsGo, if_neg (by simp), if_pos rfl]
    exact refRowsGo_quoted (fun x hx => (hv x hx).1) rest true

theorem refRowsGo_row :
    ∀ (r : List CsvField), (∀ f ∈ r, fieldValid f = true) → r ≠ [] →
      ∀ (rest : List Nat) (s : Bool),
        refRowsGo (renderRow r ++ rest) false s = refRowsGo rest false true := by
  intro r
  induction r with
  | nil =>
    intro _ hne
    exact absurd rfl hne
  | cons f tf ih =>
    intro hv _ rest s
    cases tf with
    | nil =>
      rw [show renderRow [f] = renderField f from rfl]
      exact refRowsGo_field (hv f (by simp)) rest s
    | cons g tg =>
      have hsh : renderRow (f :: g :: tg) ++ rest
          = renderField f ++ (44 :: (renderRow (g :: tg) ++ rest)) := by
        rw [show renderRow (f :: g :: tg) = renderField f ++ 44 :: renderRow (g :: tg) from rfl]
        simp
      rw [hsh, refRowsGo_field (hv f (by simp)), refRowsGo, if_neg (by simp), if_neg (by omega)]
      exact ih (fun x hx => hv x (by simp [hx])) (by simp) rest true

theorem refRowCount_render :
    ∀ rows : List (List CsvField), csvValid rows = true →
      refRowsGo (renderRows rows) false false = rows.length := by
  intro rows
  induction rows with
  | nil =>
    intro _
    rfl
  | cons r rs ih =>
    intro hv
    rw [csvValid] at hv
    simp only [List.all_cons, Bool.and_eq_true] at hv
    have hrv := hv.1
    rw [rowValid] at hrv
    simp only [Bool.and_eq_true, decide_eq_true_eq, List.all_eq_true] at hrv
    rw [show renderRows (r :: rs) = renderRow r ++ 10 :: renderRows rs from rfl,
      refRowsGo_row r hrv.2 (by intro he; rw [he] at hrv; simp at hrv),
      refRowsGo, if_pos (by simp), ih (by rw [csvValid]; exact hv.2)]
    simp [Nat.add_comm]

-- ============================================================================
-- CLAIM C6: row count of repeated fp_parse_csv_line vs reference line split
-- (corrected: whitespace-only rows are merged into the following row)
-- ============================================================================

/-- C6 counterexample: the input `"a\n \nb\n"` — three logical rows under
the reference split on unquoted newlines (`a`, a row holding the single
bare field `" "`, and `b`) — is consumed by only two `fp_parse_csv_line`
calls: the whitespace skip at the start of the second call's first field
runs across the `" \n"` row and the skipped row never yields a call of its
own. -/
theorem c6_row_count_counterexample :
    fp_csv_row_calls 6 (fp_init_cstr [97, 10, 32, 10, 98, 10]) = 2 ∧
    refRowCount [97, 10, 32, 10, 98, 10] = 3 ∧
    fp_csv_row_calls 6 (fp_init_cstr [97, 10, 32, 10, 98, 10])
      ≠ refRowCount [97, 10, 32, 10, 98, 10] := by
  refine ⟨?_, ?_, ?_⟩ <;> decide

/-- C6 (amended): for every valid CSV document in which every row has 1 to
`FP_CSV_MAX_FIELDS` well-formed fields — bare fields non-empty, starting
with a byte that is neither whitespace nor a quote and containing no
comma/CR/LF/quote; quoted fields containing no quote or backslash — calling
`fp_parse_csv_line` repeatedly until `fp_at_end` performs exactly one call
per logical row, matching the reference split of the input on newlines that
are not inside quoted fields.  Without the restriction on bare fields the
counterexample shows a whitespace-only row being absorbed by the next
call's leading whitespace skip. -/
theorem c6_row_count_amended (rows : List (List CsvField)) (fuel : Nat)
    (hv : csvValid rows = true) (hf : rows.length ≤ fuel) :
    fp_csv_row_calls fuel (fp_init_cstr (renderRows rows)) = rows.length ∧
    refRowCount (renderRows rows) = rows.length :=
  ⟨fp_csv_row_calls_render rows fuel _ hv hf (fp_rem_init_cstr _),
   refRowCount_render rows hv⟩

theorem c6_row_count_amended_witness :
    csvValid [[CsvField.bare [97]], [CsvField.quoted [120, 44, 10, 121]],
      [CsvField.bare [98], CsvField.bare [99]]] = true ∧
    ([[CsvField.bare [97]], [CsvField.quoted [120, 44, 10, 121]],
      [CsvField.bare [98], CsvField.bare [99]]] : List (List CsvField)).length ≤ 3 ∧
    (fp_csv_row_calls 3 (fp_init_cstr (renderRows [[CsvField.bare [97]],
        [CsvField.quoted [120, 44, 10, 121]], [CsvField.bare [98], CsvField.bare [99]]])) = 3 ∧
      refRowCount (renderRows [[CsvField.bare [97]], [CsvField.quoted [120, 44, 10, 121]],
        [CsvField.bare [98], CsvField.bare [99]]]) = 3) :=
  ⟨by decide, by decide,
   c6_row_count_amended [[CsvField.bare [97]], [CsvField.quoted [120, 44, 10, 121]],
     [CsvField.bare [98], CsvField.bare [99]]] 3 (by decide) (by decide)⟩
